import Mathlib

/-!
# L0kalCh4t server: client registry, admission handshake, broadcast and heartbeat

A shallow embedding of `src/server/src/client_manager.c`.

* The linked list that starts at `client_list` is a `List client_entry_t`, in
  `next_entry` order.  A pointer to a record is the record's address `addr`;
  a record is live exactly while it is in the list, so dereferencing an
  address that is no longer in the list is a use after `free`.
* C strings are `List Char` (the characters before the terminating NUL); the
  sizes of the buffers that hold them are not part of the model.
* What the transport does is supplied by an `Env`: the outcome of every send
  and the clock read by `broadcast`.  Every send is recorded in `State.sent`.
* Storage that the code reads without having written it (the `sscanf`
  targets when the conversion fails, the `missed_beats` of a `malloc`ed
  record) is supplied by the caller of the model as `Indeterminate`.
* A call either returns (`Outcome.ok`) or stops the process
  (`Outcome.fault`): a NULL dereference, a use after free, `exit(-1)`.  The
  state carried by a fault is the state at that moment.
* `heartbeat` is a call like the others: the model has no signal that
  interrupts another call.  Diagnostics on `stderr`/`stdout`, `close` and
  `free` leave the modelled state as it is.
-/

namespace L0kalCh4t

/-! ## Constants of `settings.h` -/

def MAXCLIENTS : Nat := 10

/-! ## Data model -/

/-- The `__rsa_key_struct` of `rsa.h`: radix `b`, and the two numbers as text
in that radix (`[]` stands for a NULL pointer). -/
structure rsa_key_t where
  b : Nat
  d : List Char
  e : List Char
deriving DecidableEq, Repr

/-- Modelled from the spec: the session record `client_entry_t`, whose
declaration (`client_manager.h`) is not among the sources.  The fields are the
ones `client_manager.c` reads and writes; `addr` is the address of the record
and `next_entry` is the position in the list. -/
structure client_entry_t where
  addr : Nat
  socket : Int
  ip : List Char
  uname : List Char
  key : rsa_key_t
  missed_beats : Nat
deriving DecidableEq, Repr

/-- One call of `send_message` (`key = none`) or `send_encrypted_message`
(`key = some k`), with the text handed to it and whether it succeeded. -/
structure Sent where
  socket : Int
  text : List Char
  key : Option rsa_key_t
  ok : Bool
deriving DecidableEq, Repr

/-- The file-scope variables `client_list` and `num_clients`, the sends made
so far, and the next address `malloc` hands out. -/
structure State where
  client_list : List client_entry_t
  num_clients : Nat
  sent : List Sent
  next_addr : Nat
deriving DecidableEq, Repr

/-- What the transport and the clock do: `send_ok n` is the outcome of the
send made after `n` earlier sends, `clock n` the local time of day in seconds
read by a `broadcast` that starts after `n` sends. -/
structure Env where
  send_ok : Nat → Bool
  clock : Nat → Nat

inductive Fault where
  | null_deref
  | use_after_free
  | exit_failure
  | out_of_fuel
deriving DecidableEq, Repr

/-- Result of a call: it returned `ret` in state `s`, or the process stopped
with fault `f` in state `s`. -/
inductive Outcome (α : Type) where
  | ok (ret : α) (s : State)
  | fault (f : Fault) (s : State)
deriving DecidableEq, Repr

/-! ## Transport -/

/-- A call of `send_message` / `send_encrypted_message`: the outcome comes from
the environment and the call is appended to the log. -/
def send (env : Env) (socket : Int) (text : List Char) (key : Option rsa_key_t)
    (s : State) : Bool × State :=
  let r := env.send_ok s.sent.length
  (r, { s with sent := s.sent ++ [⟨socket, text, key, r⟩] })

/-! ## Pointers into the list -/

/-- Dereference the pointer `a`: the record at that address together with the
records that follow it (`next_entry` chain), or `none` when no live record has
that address. -/
def deref (a : Nat) : List client_entry_t → Option (client_entry_t × List client_entry_t)
  | [] => none
  | e :: es => if e.addr = a then some (e, es) else deref a es

/-- The pointer to the first record of a chain (`none` is NULL). -/
def ptr (l : List client_entry_t) : Option Nat := l.head?.map client_entry_t.addr

/-- Unlink the first record whose socket is `socket`; `none` when there is
none (the search of `remove_client` reached the end). -/
def unlink (socket : Int) : List client_entry_t → Option (client_entry_t × List client_entry_t)
  | [] => none
  | e :: es =>
    if e.socket = socket then some (e, es)
    else match unlink socket es with
      | none => none
      | some (d, es') => some (d, e :: es')

/-- `num_clients--` on an `unsigned`. -/
def dec_u32 (n : Nat) : Nat := (n + 2 ^ 32 - 1) % 2 ^ 32

/-- `num_clients++` on an `unsigned`. -/
def inc_u32 (n : Nat) : Nat := (n + 1) % 2 ^ 32

/-- A decimal digit as a character. -/
def digit_char (n : Nat) : Char := Char.ofNat (48 + n % 10)

/-- The text `strftime(time_str, 9, "%H:%M:%S", localtime(&curr_time))` for the
time of day `t` (in seconds). -/
def strftime_HMS (t : Nat) : List Char :=
  let h := t / 3600 % 24
  let m := t / 60 % 60
  let sec := t % 60
  [digit_char (h / 10), digit_char h, ':', digit_char (m / 10), digit_char m, ':',
   digit_char (sec / 10), digit_char sec]

/-- The text `sprintf(outgoing, "(%s) %s: %s", time_str, uname, msg)`. -/
def outgoing_fmt (time_str uname msg : List Char) : List Char :=
  "(".toList ++ time_str ++ ") ".toList ++ uname ++ ": ".toList ++ msg

/-- The text `sprintf(leavemsg, "%s left the chat", uname)`. -/
def leavemsg_fmt (uname : List Char) : List Char := uname ++ " left the chat".toList

/-- The text `sprintf(joinmsg, "%s joined the chat", uname)`. -/
def joinmsg_fmt (uname : List Char) : List Char := uname ++ " joined the chat".toList

def SERVER : List Char := "SERVER".toList

/-! ## `broadcast` and `remove_client`

The two call each other; `fuel` bounds the depth of the calls and loop
iterations still allowed. -/

mutual

/-- The `while (iterator)` loop of `broadcast`. -/
def broadcast_loop : Nat → Env → List Char → Option Nat → Int → State → Outcome Int
  | 0, _, _, _, _, s => .fault .out_of_fuel s
  | _ + 1, _, _, none, result, s => .ok result s
  | fuel + 1, env, outgoing, some it, result, s =>
    match deref it s.client_list with
    | none => .fault .use_after_free s
    | some (e, rest) =>
      match send env e.socket outgoing (some e.key) s with
      | (true, s1) => broadcast_loop fuel env outgoing (ptr rest) result s1
      | (false, s1) =>
        -- remove_client(iterator->next_entry->socket)
        match rest with
        | [] => .fault .null_deref s1
        | nx :: _ =>
          match remove_client_aux fuel env nx.socket s1 with
          | .fault f s2 => .fault f s2
          | .ok r s2 =>
            if r = -1 then .fault .exit_failure s2
            else
              -- iterator = iterator->next_entry
              match deref it s2.client_list with
              | none => .fault .use_after_free s2
              | some (_, rest2) => broadcast_loop fuel env outgoing (ptr rest2) (-1) s2

/-- The body of `broadcast`: build the line, then walk the list from the
second record. -/
def broadcast_aux : Nat → Env → List Char → List Char → State → Outcome Int
  | 0, _, _, _, s => .fault .out_of_fuel s
  | fuel + 1, env, uname, msg, s =>
    match s.client_list with
    | [] => .fault .null_deref s
    | _ :: rest =>
      broadcast_loop fuel env (outgoing_fmt (strftime_HMS (env.clock s.sent.length)) uname msg)
        (ptr rest) 0 s

/-- The body of `remove_client`. -/
def remove_client_aux : Nat → Env → Int → State → Outcome Int
  | 0, _, _, s => .fault .out_of_fuel s
  | fuel + 1, env, socket, s =>
    match s.client_list with
    | [] => .fault .null_deref s
    | hd :: rest =>
      if hd.socket = socket then
        -- client_list = client_list->next_entry; free(iterator); iterator->next_entry
        .fault .use_after_free { s with client_list := rest }
      else
        match unlink socket rest with
        | none => .ok (-1) s
        | some (deletethis, rest') =>
          let s1 := { s with client_list := hd :: rest' }
          match broadcast_aux fuel env SERVER (leavemsg_fmt deletethis.uname) s1 with
          | .fault f s2 => .fault f s2
          | .ok _ s2 => .ok 0 { s2 with num_clients := dec_u32 s2.num_clients }

end

/-- Depth that always suffices for a list of `n` records: every call of
`remove_client` unlinks one record before it calls `broadcast`, and every
loop iteration leaves one record fewer ahead of the iterator. -/
def fuel_bound (n : Nat) : Nat := (n + 2) * (n + 2)

/-- `broadcast(uname, msg)`. -/
def broadcast (env : Env) (uname msg : List Char) (s : State) : Outcome Int :=
  broadcast_aux (fuel_bound s.client_list.length) env uname msg s

/-- `remove_client(socket)`. -/
def remove_client (env : Env) (socket : Int) (s : State) : Outcome Int :=
  remove_client_aux (fuel_bound s.client_list.length) env socket s

/-! ## `init_client_manager` -/

/-- `init_client_manager(server_socket)`: the list holds the server record
only (a `calloc`ed record: zero key, zero `missed_beats`). -/
def init_client_manager (server_socket : Int) : State :=
  { client_list := [⟨0, server_socket, "0.0.0.0".toList, SERVER, ⟨0, [], []⟩, 0⟩]
    num_clients := 0
    sent := []
    next_addr := 1 }

/-! ## `heartbeat` -/

def HEARTBEAT : List Char := "HEARTBEAT\n".toList
def DISCONNECT : List Char := "DISCONNECT\n".toList

/-- The statement `p->missed_beats++` for the record at address `a`. -/
def bump (a : Nat) : List client_entry_t → List client_entry_t
  | [] => []
  | e :: es =>
    if e.addr = a then { e with missed_beats := e.missed_beats + 1 } :: es
    else e :: bump a es

/-- The statement `p->missed_beats = 0` for the record at address `a`. -/
def reset (a : Nat) : List client_entry_t → List client_entry_t
  | [] => []
  | e :: es =>
    if e.addr = a then { e with missed_beats := 0 } :: es
    else e :: reset a es

/-- The `while (iterator->next_entry)` loop of `heartbeat`; `it` is
`iterator`. -/
def heartbeat_loop : Nat → Env → Nat → State → Outcome Unit
  | 0, _, _, s => .fault .out_of_fuel s
  | fuel + 1, env, it, s =>
    match deref it s.client_list with
    | none => .fault .use_after_free s
    | some (_, []) => .ok () s
    | some (_, nx :: _) =>
      if nx.missed_beats = 3 then
        match remove_client_aux fuel env nx.socket s with
        | .fault f s2 => .fault f s2
        | .ok r s2 =>
          if r = -1 then .fault .exit_failure s2
          else heartbeat_loop fuel env it s2
      else
        match send env nx.socket HEARTBEAT (some nx.key) s with
        | (true, s1) =>
          heartbeat_loop fuel env nx.addr { s1 with client_list := bump nx.addr s1.client_list }
        | (false, s1) =>
          match remove_client_aux fuel env nx.socket s1 with
          | .fault f s2 => .fault f s2
          | .ok r s2 =>
            if r = -1 then .fault .exit_failure s2
            else
              -- iterator->next_entry->missed_beats++; iterator = iterator->next_entry
              match deref it s2.client_list with
              | none => .fault .use_after_free s2
              | some (_, []) => .fault .null_deref s2
              | some (_, n2 :: _) =>
                heartbeat_loop fuel env n2.addr
                  { s2 with client_list := bump n2.addr s2.client_list }

/-- `heartbeat(sig)` (re-arming the alarm is not part of the state). -/
def heartbeat (env : Env) (s : State) : Outcome Unit :=
  match s.client_list with
  | [] => .fault .null_deref s
  | hd :: _ => heartbeat_loop (fuel_bound s.client_list.length) env hd.addr s

/-! ## `handle_client_message` -/

/-- `get_client_with_socket(socket)`: the first record with that socket, the
server record included. -/
def get_client_with_socket (socket : Int) (l : List client_entry_t) : Option client_entry_t :=
  l.find? (fun e => e.socket = socket)

/-- `handle_client_message(socket, privkey)`; `len` and `msg` are what
`receive_encrypted_message` returned and left in the buffer. -/
def handle_client_message (env : Env) (socket : Int) (len : Int) (msg : List Char)
    (s : State) : Outcome Int :=
  match get_client_with_socket socket s.client_list with
  | none => .ok (-1) s
  | some client =>
    if len = -1 then .ok (-1) s
    else if msg = DISCONNECT ∨ len = 0 then
      match remove_client env socket s with
      | .fault f s1 => .fault f s1
      | .ok r s1 => if r = -1 then .ok (-1) s1 else .ok 0 s1
    else if msg = HEARTBEAT then
      .ok 0 { s with client_list := reset client.addr s.client_list }
    else
      match broadcast env client.uname msg s with
      | .fault f s1 => .fault f s1
      | .ok r s1 => if r = -1 then .ok (-1) s1 else .ok 0 s1

/-! ## `new_connection` -/

/-- `validate_uname(uname)`: `-1` when some record, the server record
included, carries that name. -/
def validate_uname (uname : List Char) (l : List client_entry_t) : Int :=
  if l.any (fun e => uname = e.uname) then -1 else 0

/-- The C locale's `isspace`. -/
def isspace (c : Char) : Bool :=
  c.toNat = 32 || (9 ≤ c.toNat && c.toNat ≤ 13)

/-- `strstr(hay, needle)`: the part of `hay` from the first occurrence of
`needle` on, `none` for NULL. -/
def strstr : List Char → List Char → Option (List Char)
  | [], needle => if needle = [] then some [] else none
  | c :: cs, needle =>
    if needle.isPrefixOf (c :: cs) then some (c :: cs) else strstr cs needle

/-- `sscanf(input, "<lit> %<width>s", buf)`: after the literal and any white
space, at most `width` characters up to the next white space; `none` when
nothing is converted (the buffer is then left as it was). -/
def sscanf_s (lit : List Char) (width : Nat) (input : List Char) : Option (List Char) :=
  if lit.isPrefixOf input then
    let tok := (((input.drop lit.length).dropWhile isspace).takeWhile
      (fun c => !isspace c)).take width
    if tok = [] then none else some tok
  else none

def isdigit (c : Char) : Bool := 48 ≤ c.toNat && c.toNat ≤ 57

/-- `strtol(str, NULL, 10)`: optional white space and sign, then the decimal
digits; the result saturates at the bounds of a 64-bit `long`. -/
def strtol10 (str : List Char) : Int :=
  let s := str.dropWhile isspace
  let neg := s.head? = some '-'
  let s := if s.head? = some '-' ∨ s.head? = some '+' then s.tail else s
  let v : Nat := (s.takeWhile isdigit).foldl (fun acc c => acc * 10 + (c.toNat - 48)) 0
  if neg then max (-(2 ^ 63 : Int)) (-(v : Int)) else min ((2 : Int) ^ 63 - 1) (v : Int)

/-- Conversion of a `long` to a 32-bit `int`. -/
def long_to_int (v : Int) : Int := (v + 2 ^ 31) % 2 ^ 32 - 2 ^ 31

/-- Value of a digit for `mpz_set_str` (GMP manual): for bases up to 36 case
is ignored; for bases 37 to 62 upper case is 10..35 and lower case 36..61. -/
def digit_value (base : Int) (c : Char) : Option Nat :=
  let n := c.toNat
  if 48 ≤ n ∧ n ≤ 57 then some (n - 48)
  else if 65 ≤ n ∧ n ≤ 90 then some (n - 65 + 10)
  else if 97 ≤ n ∧ n ≤ 122 then some (if base ≤ 36 then n - 97 + 10 else n - 97 + 36)
  else none

def valid_digit (base : Int) (c : Char) : Bool :=
  match digit_value base c with
  | some v => decide ((v : Int) < base)
  | none => false

/-- `mpz_set_str(rop, str, base)` for a base in 2..62 (GMP manual): leading
white space and an optional minus sign, then digits of that base, white space
between them being ignored; `none` when the string is not a valid number. -/
def mpz_set_str (str : List Char) (base : Int) : Option Int :=
  let s := str.dropWhile isspace
  let neg := s.head? = some '-'
  let s := if s.head? = some '-' then s.tail else s
  match s with
  | [] => none
  | c :: _ =>
    if valid_digit base c then
      let ds := s.filter (fun c => !isspace c)
      if ds.all (valid_digit base) then
        let v : Int := ds.foldl (fun acc c => acc * base + ((digit_value base c).getD 0 : Nat)) 0
        some (if neg then -v else v)
      else none
    else none

/-- The test `mpz_cmp_ui(x, 0) == 0` after `mpz_init(x); mpz_set_str(x, str,
base)`: `x` keeps the zero of `mpz_init` when the conversion fails. -/
def mpz_is_zero (str : List Char) (base : Int) : Bool :=
  (mpz_set_str str base).getD 0 = 0

/-- Storage that `new_connection` reads without having written it: the four
`sscanf` targets as they were before the call, and the `missed_beats` of
the record `malloc` returned. -/
structure Indeterminate where
  base_str : List Char
  exponent : List Char
  divisor : List Char
  uname : List Char
  missed_beats : Nat

/-- The nine rejection texts. -/
def MISSING_BASE : List Char := "Missing BASE field\n".toList
def INVALID_BASE : List Char := "Invalid BASE value\n".toList
def MISSING_EXP : List Char := "Missing EXP field\n".toList
def INVALID_EXP : List Char := "Invalid EXP value\n".toList
def MISSING_DIV : List Char := "Missing DIV field\n".toList
def INVALID_DIV : List Char := "Invalid DIV value\n".toList
def AT_CAPACITY : List Char := "Server at max capacity\n".toList
def MISSING_UNAME : List Char := "Missing UNAME field\n".toList
def UNAME_EXISTS : List Char := "Username already exists\n".toList

/-- One labelled field: `field_ptr = strstr(msg, "<lit> ")`, `none` when that is
NULL, else the buffer after `sscanf(field_ptr, "<lit> %<width>s", buf)`, which
keeps its earlier content `old` when nothing is converted. -/
def scan_field (lit : List Char) (width : Nat) (msg old : List Char) : Option (List Char) :=
  match strstr msg (lit ++ [' ']) with
  | none => none
  | some field_ptr => some ((sscanf_s lit width field_ptr).getD old)

/-- `base_str` after the `BASE` scan. -/
def field_BASE (msg : List Char) (u : Indeterminate) : Option (List Char) :=
  scan_field "BASE:".toList 4 msg u.base_str

/-- `exponent` after the `EXP` scan. -/
def field_EXP (msg : List Char) (u : Indeterminate) : Option (List Char) :=
  scan_field "EXP:".toList 64 msg u.exponent

/-- `divisor` after the `DIV` scan. -/
def field_DIV (msg : List Char) (u : Indeterminate) : Option (List Char) :=
  scan_field "DIV:".toList 1024 msg u.divisor

/-- `uname` after the `UNAME` scan. -/
def field_UNAME (msg : List Char) (u : Indeterminate) : Option (List Char) :=
  scan_field "UNAME:".toList 16 msg u.uname

/-- `int base = strtol(base_str, NULL, 10)`. -/
def base_of (base_str : List Char) : Int := long_to_int (strtol10 base_str)

/-- A rejection: one send, then `return -1`. -/
def reject (env : Env) (socket : Int) (text : List Char) (key : Option rsa_key_t)
    (s : State) : Outcome Int :=
  .ok (-1) (send env socket text key s).2

/-- The part of `new_connection` after the last validation: fill in the new
record, send the acceptance, append the record, announce it. -/
def admit_client (env : Env) (response : List Char) (new_entry : client_entry_t)
    (s : State) : Outcome Int :=
  match send env new_entry.socket response (some new_entry.key) s with
  | (false, s1) => .ok (-1) s1
  | (true, s1) =>
    match s1.client_list with
    | [] => .fault .null_deref s1
    | _ :: _ =>
      let s2 : State :=
        { s1 with
          client_list := s1.client_list ++ [new_entry]
          num_clients := inc_u32 s1.num_clients }
      match broadcast env SERVER (joinmsg_fmt new_entry.uname) s2 with
      | .fault f s3 => .fault f s3
      | .ok r s3 => if r = -1 then .ok (-1) s3 else .ok 0 s3

/-- `new_connection(socket, ip, pubkey)`.  `recv` is what `receive_message`
left in the buffer (`none` when it returned `-1`); `accept_resp` is the text
`sprintf` produces from `ACCEPT_RESP_TMPLT`, a template declared in a header
that is not among the sources. -/
def new_connection (env : Env) (accept_resp : Nat → List Char → List Char → List Char)
    (socket : Int) (ip : List Char) (pubkey : rsa_key_t)
    (recv : Option (List Char)) (u : Indeterminate) (s : State) : Outcome Int :=
  match recv with
  | none => .ok (-1) s
  | some msg =>
  match field_BASE msg u with
  | none => reject env socket MISSING_BASE none s
  | some base_str =>
  if base_of base_str < 2 ∨ base_of base_str > 62 then reject env socket INVALID_BASE none s
  else
  match field_EXP msg u with
  | none => reject env socket MISSING_EXP none s
  | some exponent =>
  if mpz_is_zero exponent (base_of base_str) then reject env socket INVALID_EXP none s
  else
  match field_DIV msg u with
  | none => reject env socket MISSING_DIV none s
  | some divisor =>
  if mpz_is_zero divisor (base_of base_str) then reject env socket INVALID_DIV none s
  else
  if s.num_clients = MAXCLIENTS then
    reject env socket AT_CAPACITY (some ⟨(base_of base_str).toNat, divisor, exponent⟩) s
  else
  match field_UNAME msg u with
  | none =>
    reject env socket MISSING_UNAME (some ⟨(base_of base_str).toNat, divisor, exponent⟩) s
  | some uname =>
  if validate_uname uname s.client_list = -1 then
    reject env socket UNAME_EXISTS (some ⟨(base_of base_str).toNat, divisor, exponent⟩) s
  else
    admit_client env (accept_resp pubkey.b pubkey.e pubkey.d)
      ⟨s.next_addr, socket, ip, uname, ⟨(base_of base_str).toNat, divisor, exponent⟩,
        u.missed_beats⟩
      { s with next_addr := s.next_addr + 1 }

/-! ## The validation steps as the specification lists them -/

/-- The nine validation steps of the handshake, named as the specification
names them. -/
inductive Check where
  | missing_base
  | invalid_base
  | missing_exp
  | invalid_exp
  | missing_div
  | invalid_div
  | at_capacity
  | missing_uname
  | uname_exists
deriving DecidableEq, Repr

/-- The order in which the specification lists the steps. -/
def spec_checks : List Check :=
  [.missing_base, .invalid_base, .missing_exp, .invalid_exp, .missing_div, .invalid_div,
   .at_capacity, .missing_uname, .uname_exists]

/-- The response text the specification gives for each step. -/
def Check.text : Check → List Char
  | .missing_base => "Missing BASE field\n".toList
  | .invalid_base => "Invalid BASE value\n".toList
  | .missing_exp => "Missing EXP field\n".toList
  | .invalid_exp => "Invalid EXP value\n".toList
  | .missing_div => "Missing DIV field\n".toList
  | .invalid_div => "Invalid DIV value\n".toList
  | .at_capacity => "Server at max capacity\n".toList
  | .missing_uname => "Missing UNAME field\n".toList
  | .uname_exists => "Username already exists\n".toList

/-- The radix the request declares (0 when the label is missing). -/
def req_base (msg : List Char) (u : Indeterminate) : Int :=
  match field_BASE msg u with
  | none => 0
  | some b => base_of b

/-- Whether a step, taken by itself, fails on the request `msg` in state `s`. -/
def Check.fails (msg : List Char) (u : Indeterminate) (s : State) : Check → Bool
  | .missing_base => (field_BASE msg u).isNone
  | .invalid_base => decide (req_base msg u < 2 ∨ req_base msg u > 62)
  | .missing_exp => (field_EXP msg u).isNone
  | .invalid_exp =>
    match field_EXP msg u with
    | none => false
    | some e => mpz_is_zero e (req_base msg u)
  | .missing_div => (field_DIV msg u).isNone
  | .invalid_div =>
    match field_DIV msg u with
    | none => false
    | some d => mpz_is_zero d (req_base msg u)
  | .at_capacity => decide (s.num_clients = MAXCLIENTS)
  | .missing_uname => (field_UNAME msg u).isNone
  | .uname_exists =>
    match field_UNAME msg u with
    | none => false
    | some n => s.client_list.any (fun e => n = e.uname)

/-- The first step, in the specification's order, that fails. -/
def first_failed (msg : List Char) (u : Indeterminate) (s : State) : Option Check :=
  spec_checks.find? (Check.fails msg u s)

/-- The key the request declares: `client_key` once `BASE`, `EXP` and `DIV`
are scanned. -/
def declared_key (msg : List Char) (u : Indeterminate) : rsa_key_t :=
  ⟨(req_base msg u).toNat, (field_DIV msg u).getD [], (field_EXP msg u).getD []⟩

/-- How the code sends the response of each step: `none` through
`send_message`, `some k` through `send_encrypted_message` under `k`. -/
def Check.key (msg : List Char) (u : Indeterminate) : Check → Option rsa_key_t
  | .at_capacity => some (declared_key msg u)
  | .missing_uname => some (declared_key msg u)
  | .uname_exists => some (declared_key msg u)
  | _ => none

/-! ## Relations between states, used to state invariants -/

/-- A record without its heartbeat counter. -/
def forget (e : client_entry_t) : client_entry_t := { e with missed_beats := 0 }

/-- The counter `num_clients` is at least the number of sessions in the list
and fits an `unsigned`. -/
def Counted (s : State) : Prop :=
  s.client_list.length ≤ s.num_clients + 1 ∧ s.num_clients < 2 ^ 32

/-- State `s'` comes from `s` by unlinking records other than the first, each
unlinking counted in `num_clients` (as long as the counter does not wrap), and
by changing heartbeat counters. -/
structure Shrinks (s s' : State) : Prop where
  sub : (s'.client_list.map forget).Sublist (s.client_list.map forget)
  head : s'.client_list.head?.map forget = s.client_list.head?.map forget
  count : Counted s →
    s'.num_clients + s.client_list.length = s.num_clients + s'.client_list.length
  addr : s'.next_addr = s.next_addr

/-- The server record that `init_client_manager` creates. -/
def server_record (server_socket : Int) : client_entry_t :=
  ⟨0, server_socket, "0.0.0.0".toList, SERVER, ⟨0, [], []⟩, 0⟩

/-- The invariant of the registry. -/
structure Inv (server_socket : Int) (s : State) : Prop where
  head : s.client_list.head?.map forget = some (server_record server_socket)
  names : (s.client_list.map client_entry_t.uname).Nodup
  count : s.client_list.length = s.num_clients + 1
  capacity : s.num_clients ≤ MAXCLIENTS
  addrs : (s.client_list.map client_entry_t.addr).Nodup
  fresh : ∀ e ∈ s.client_list, e.addr < s.next_addr

/-- States reachable from `init_client_manager(server_socket)` by calls of
`new_connection`, `handle_client_message` and `heartbeat` that return, with
any arguments, any received data and any behaviour of the transport. -/
inductive Reachable (server_socket : Int) : State → Prop where
  | init : Reachable server_socket (init_client_manager server_socket)
  | new_connection {s s' : State} {r : Int} (env : Env)
      (ar : Nat → List Char → List Char → List Char) (socket : Int) (ip : List Char)
      (pk : rsa_key_t) (recv : Option (List Char)) (u : Indeterminate) :
      Reachable server_socket s →
      new_connection env ar socket ip pk recv u s = .ok r s' → Reachable server_socket s'
  | handle_client_message {s s' : State} {r : Int} (env : Env) (socket : Int) (len : Int)
      (msg : List Char) :
      Reachable server_socket s →
      handle_client_message env socket len msg s = .ok r s' → Reachable server_socket s'
  | heartbeat {s s' : State} (env : Env) :
      Reachable server_socket s →
      heartbeat env s = .ok () s' → Reachable server_socket s'

/-- Well-formed state: the counter agrees with the list, distinct records have
distinct addresses, and `next_addr` is above all of them. -/
structure WF (s : State) : Prop where
  count : s.client_list.length = s.num_clients + 1
  small : s.num_clients < 2 ^ 32
  addrs : (s.client_list.map client_entry_t.addr).Nodup
  fresh : ∀ e ∈ s.client_list, e.addr < s.next_addr

instance (s : State) : Decidable (WF s) :=
  decidable_of_iff
    (s.client_list.length = s.num_clients + 1 ∧ s.num_clients < 2 ^ 32
      ∧ (s.client_list.map client_entry_t.addr).Nodup
      ∧ ∀ e ∈ s.client_list, e.addr < s.next_addr)
    ⟨fun h => ⟨h.1, h.2.1, h.2.2.1, h.2.2.2⟩, fun h => ⟨h.count, h.small, h.addrs, h.fresh⟩⟩

/-- The log record of a successful `send_encrypted_message` of `text` to the
session `e`. -/
def delivered (text : List Char) (e : client_entry_t) : Sent :=
  ⟨e.socket, text, some e.key, true⟩

/-- The line `broadcast("SERVER", leavemsg)` builds at time of day `t` for the
departure of the session named `uname`. -/
def departure_line (t : Nat) (uname : List Char) : List Char :=
  outgoing_fmt (strftime_HMS t) SERVER (leavemsg_fmt uname)

/-! ## Measures for termination -/

/-- The call did not stop for lack of fuel. -/
def Outcome.finished {α : Type} : Outcome α → Prop
  | .fault .out_of_fuel _ => False
  | _ => True

/-- Number of records from the one at address `a` to the end of the list (0
when no record has that address). -/
def ahead (a : Nat) : List client_entry_t → Nat
  | [] => 0
  | e :: es => if e.addr = a then es.length + 1 else ahead a es

/-- `ahead` for a pointer that may be NULL. -/
def ahead_ptr (it : Option Nat) (l : List client_entry_t) : Nat :=
  match it with
  | none => 0
  | some a => ahead a l

/-- Fuel that suffices for `remove_client` on a list of at most `n` records. -/
def fuel_remove (n : Nat) : Nat := n * (n + 2) + 1

/-! ## Concrete inputs used by the examples -/

/-- Every send succeeds; the clock reads 12:00:00. -/
def env_all_ok : Env := ⟨fun _ => true, fun _ => 43200⟩

/-- The second send fails, every other send succeeds. -/
def env_second_fails : Env := ⟨fun n => n != 1, fun _ => 43200⟩

def ex_key : rsa_key_t := ⟨16, "1F4".toList, "11".toList⟩

def ex_server : client_entry_t := ⟨0, 3, "0.0.0.0".toList, SERVER, ⟨0, [], []⟩, 0⟩
def ex_alice : client_entry_t := ⟨1, 4, "10.0.0.1".toList, "alice".toList, ex_key, 0⟩
def ex_bob : client_entry_t := ⟨2, 5, "10.0.0.2".toList, "bob".toList, ex_key, 0⟩
def ex_carol : client_entry_t := ⟨3, 6, "10.0.0.3".toList, "carol".toList, ex_key, 0⟩

/-- The server record and three sessions. -/
def ex_state3 : State := ⟨[ex_server, ex_alice, ex_bob, ex_carol], 3, [], 4⟩

/-- The server record and one session, alice. -/
def ex_state1 : State := ⟨[ex_server, ex_alice], 1, [], 2⟩

def ex_indet : Indeterminate := ⟨[], [], [], [], 0⟩

def ex_pubkey : rsa_key_t := ⟨62, "z9".toList, "h".toList⟩

/-- A rendering of the acceptance template, for the examples. -/
def ex_accept_resp (b : Nat) (e d : List Char) : List Char :=
  "BASE: ".toList ++ (Nat.toDigits 10 b) ++ "\nEXP: ".toList ++ e ++ "\nDIV: ".toList ++ d
    ++ "\n".toList

/-- The request of the specification's end-to-end example. -/
def ex_request : List Char := "BASE: 16\nEXP: 11\nDIV: 1F4\nUNAME: alice\n".toList

/-- The server record and two sessions, bob and carol. -/
def ex_state2 : State := ⟨[ex_server, ex_bob, ex_carol], 2, [], 4⟩

/-- The server record, alice and carol, and bob who has missed three beats. -/
def ex_state_timeout : State :=
  ⟨[ex_server, ex_alice, { ex_bob with missed_beats := 3 }, ex_carol], 3, [], 4⟩

/-- The state after `init_client_manager(3)` and the admission of alice on
socket 7. -/
def ex_admitted : State :=
  { client_list := [ex_server, ⟨1, 7, "10.0.0.9".toList, "alice".toList, ex_key, 0⟩]
    num_clients := 1
    sent :=
      [⟨7, "BASE: 62\nEXP: h\nDIV: z9\n".toList, some ex_key, true⟩,
       ⟨7, "(12:00:00) SERVER: alice joined the chat".toList, some ex_key, true⟩]
    next_addr := 2 }

/-- The heartbeat token cannot be delivered to bob: the second send fails. -/
def ex_state3_after_failed_ping : State :=
  { client_list :=
      [ex_server, { ex_alice with missed_beats := 1 }, { ex_carol with missed_beats := 1 }]
    num_clients := 2
    sent :=
      [⟨4, HEARTBEAT, some ex_key, true⟩,
       ⟨5, HEARTBEAT, some ex_key, false⟩,
       ⟨4, "(12:00:00) SERVER: bob left the chat".toList, some ex_key, true⟩,
       ⟨6, "(12:00:00) SERVER: bob left the chat".toList, some ex_key, true⟩]
    next_addr := 4 }

/-- The memory `malloc` returns holds 3 where `missed_beats` lies. -/
def ex_indet3 : Indeterminate := ⟨[], [], [], [], 3⟩

/-- The state after `init_client_manager(3)` and the admission of alice on
socket 7 into a record whose `missed_beats` was never written. -/
def ex_admitted3 : State :=
  { client_list := [ex_server, ⟨1, 7, "10.0.0.9".toList, "alice".toList, ex_key, 3⟩]
    num_clients := 1
    sent :=
      [⟨7, "BASE: 62\nEXP: h\nDIV: z9\n".toList, some ex_key, true⟩,
       ⟨7, "(12:00:00) SERVER: alice joined the chat".toList, some ex_key, true⟩]
    next_addr := 2 }

/-- The call did not reach `exit(-1)`. -/
def Outcome.no_exit {α : Type} : Outcome α → Prop
  | .fault .exit_failure _ => False
  | _ => True

/-! ## The layout of a handshake request -/

/-- The four labels of a handshake request. -/
inductive Label where
  | BASE
  | EXP
  | DIV
  | UNAME
deriving DecidableEq, Repr, Fintype

/-- The literal part of the `sscanf` format of a label (`BASE_FMT` ... in
`comm.h`); `strstr` looks for it followed by a blank. -/
def Label.lit : Label → List Char
  | .BASE => "BASE:".toList
  | .EXP => "EXP:".toList
  | .DIV => "DIV:".toList
  | .UNAME => "UNAME:".toList

/-- The width of the `%s` conversion of a label in `comm.h`. -/
def Label.width : Label → Nat
  | .BASE => 4
  | .EXP => 64
  | .DIV => 1024
  | .UNAME => 16

/-- One labelled field of a request: the label, a blank, the value, and the
white space `sep` that follows the value. -/
structure Field where
  label : Label
  value : List Char
  sep : List Char
deriving DecidableEq, Repr

def Field.render (f : Field) : List Char :=
  f.label.lit ++ ' ' :: (f.value ++ f.sep)

/-- The request buffer made of the fields in the given order. -/
def render_request : List Field → List Char
  | [] => []
  | f :: fs => f.render ++ render_request fs

/-- The value is a token: not empty, without white space, within the width of
its label. -/
def Field.token (f : Field) : Prop :=
  f.value ≠ [] ∧ (∀ c ∈ f.value, isspace c = false) ∧ f.value.length ≤ f.label.width

/-- The value is followed by white space, and does not end with the text of a
label. -/
def Field.delimited (f : Field) : Prop :=
  f.sep ≠ [] ∧ (∀ c ∈ f.sep, isspace c = true) ∧ ∀ l : Label, ¬ l.lit <:+ f.value

/-- The four fields of a request, in the order BASE, EXP, DIV, UNAME. -/
def request_fields (b e d n sb se sd sn : List Char) : List Field :=
  [⟨.BASE, b, sb⟩, ⟨.EXP, e, se⟩, ⟨.DIV, d, sd⟩, ⟨.UNAME, n, sn⟩]
instance (f : Field) : Decidable f.token := by
  unfold Field.token
  infer_instance

instance (f : Field) : Decidable f.delimited := by
  unfold Field.delimited
  infer_instance

/-- Four fields separated by one blank; the UNAME value is the text "BASE:". -/
def ex_fields_base_first : List Field :=
  request_fields "16".toList "11".toList "1F4".toList "BASE:".toList [' '] [' '] [' '] [' ']

/-- The same four fields with UNAME first. -/
def ex_fields_uname_first : List Field :=
  [⟨.UNAME, "BASE:".toList, [' ']⟩, ⟨.BASE, "16".toList, [' ']⟩, ⟨.EXP, "11".toList, [' ']⟩,
   ⟨.DIV, "1F4".toList, [' ']⟩]

/-- The four fields of the specification's example, each on its own line, in
the order UNAME, DIV, BASE, EXP. -/
def ex_fields_shuffled : List Field :=
  [⟨.UNAME, "alice".toList, ['\n']⟩, ⟨.DIV, "1F4".toList, ['\n']⟩, ⟨.BASE, "16".toList, ['\n']⟩,
   ⟨.EXP, "11".toList, ['\n']⟩]

/-! # Theorems -/

/-! ## Rejections of `new_connection` -/

theorem new_connection_reject (env : Env) (ar : Nat → List Char → List Char → List Char)
    (socket : Int) (ip : List Char) (pk : rsa_key_t) (msg : List Char) (u : Indeterminate)
    (s : State) (c : Check) (h : first_failed msg u s = some c) :
    new_connection env ar socket ip pk (some msg) u s
      = reject env socket c.text (c.key msg u) s := by
  unfold new_connection
  simp only [first_failed, spec_checks, List.find?, Check.fails, req_base, declared_key, Check.key] at h ⊢
  cases hb : field_BASE msg u with
  | none => simp [hb] at h; subst h; rfl
  | some b =>
    simp only [hb, Option.isNone_some] at h ⊢
    by_cases h1 : base_of b < 2 ∨ base_of b > 62
    · simp [h1] at h; subst h; simp [h1, hb, Check.text, INVALID_BASE]
    · simp only [h1, decide_False, if_false] at h ⊢
      cases he : field_EXP msg u with
      | none => simp [he] at h; subst h; simp [MISSING_EXP, Check.text]
      | some e =>
        simp only [he, Option.isNone_some] at h ⊢
        cases h2 : mpz_is_zero e (base_of b) with
        | true => simp [h2] at h; subst h; simp [INVALID_EXP, Check.text]
        | false =>
          simp only [h2] at h ⊢
          cases hd : field_DIV msg u with
          | none => simp [hd] at h; subst h; simp [MISSING_DIV, Check.text]
          | some d =>
            simp only [hd, Option.isNone_some] at h ⊢
            cases h3 : mpz_is_zero d (base_of b) with
            | true => simp [h3] at h; subst h; simp [INVALID_DIV, Check.text]
            | false =>
              simp only [h3] at h ⊢
              by_cases h4 : s.num_clients = MAXCLIENTS
              · simp [h4] at h; subst h; simp [h4, AT_CAPACITY, Check.text, hb, he, hd]
              · simp only [h4, decide_False, if_false] at h ⊢
                cases hn : field_UNAME msg u with
                | none => simp [hn] at h; subst h; simp [MISSING_UNAME, Check.text, hb, he, hd]
                | some n =>
                  simp only [hn, Option.isNone_some] at h ⊢
                  cases h5 : s.client_list.any (fun e => n = e.uname) with
                  | true =>
                    simp [h5] at h; subst h
                    simp [validate_uname, h5, UNAME_EXISTS, Check.text, hb, he, hd]
                  | false => simp [h5] at h

/-- C4: the first validation step that fails, in the order missing BASE, invalid
BASE, missing EXP, invalid EXP, missing DIV, invalid DIV, at capacity, missing
UNAME, UNAME exists, decides the outcome of `new_connection` whatever the later
steps would say: exactly one response is sent, with that step's text, and the
call returns -1; the nine texts are the quoted ones and pairwise distinct. -/
theorem new_connection_first_failed_check (env : Env)
    (ar : Nat → List Char → List Char → List Char) (socket : Int) (ip : List Char)
    (pk : rsa_key_t) (msg : List Char) (u : Indeterminate) (s : State) (c : Check)
    (h : first_failed msg u s = some c) :
    (∃ k r, new_connection env ar socket ip pk (some msg) u s
        = .ok (-1) { s with sent := s.sent ++ [⟨socket, c.text, k, r⟩] })
    ∧ spec_checks.map Check.text
        = [MISSING_BASE, INVALID_BASE, MISSING_EXP, INVALID_EXP, MISSING_DIV, INVALID_DIV,
           AT_CAPACITY, MISSING_UNAME, UNAME_EXISTS]
    ∧ (spec_checks.map Check.text).Nodup := by
  refine ⟨⟨c.key msg u, env.send_ok s.sent.length, ?_⟩, by decide, by decide⟩
  rw [new_connection_reject env ar socket ip pk msg u s c h]
  rfl

/-- Witness of C4: a request without a BASE label. -/
theorem new_connection_first_failed_check_witness :
    first_failed "EXP: 11\nUNAME: alice\n".toList ex_indet ex_state1 = some .missing_base
    ∧ ((∃ k r, new_connection env_all_ok ex_accept_resp 7 "10.0.0.9".toList ex_pubkey
          (some "EXP: 11\nUNAME: alice\n".toList) ex_indet ex_state1
          = .ok (-1) { ex_state1 with
              sent := ex_state1.sent ++ [⟨7, Check.text .missing_base, k, r⟩] })
      ∧ spec_checks.map Check.text
          = [MISSING_BASE, INVALID_BASE, MISSING_EXP, INVALID_EXP, MISSING_DIV, INVALID_DIV,
             AT_CAPACITY, MISSING_UNAME, UNAME_EXISTS]
      ∧ (spec_checks.map Check.text).Nodup) :=
  ⟨by decide, new_connection_first_failed_check env_all_ok ex_accept_resp 7 "10.0.0.9".toList
    ex_pubkey "EXP: 11\nUNAME: alice\n".toList ex_indet ex_state1 .missing_base (by decide)⟩

theorem first_failed_of_capacity (msg : List Char) (u : Indeterminate) (s : State)
    (h : s.num_clients = MAXCLIENTS) : (first_failed msg u s).isSome = true := by
  rw [first_failed, List.find?_isSome]
  exact ⟨.at_capacity, by simp [spec_checks], by simp [Check.fails, h]⟩

theorem first_failed_of_name (msg : List Char) (u : Indeterminate) (s : State) (n : List Char)
    (hn : field_UNAME msg u = some n) (hmem : n ∈ s.client_list.map client_entry_t.uname) :
    (first_failed msg u s).isSome = true := by
  rw [first_failed, List.find?_isSome]
  refine ⟨.uname_exists, by simp [spec_checks], ?_⟩
  simp only [Check.fails, hn, List.any_eq_true, decide_eq_true_eq]
  obtain ⟨e, he, rfl⟩ := List.mem_map.1 hmem
  exact ⟨e, he, rfl⟩

/-- C5: a request that fails a validation step - in particular any request made
when the registry holds 10 sessions (and the counter agrees with the list), and
any request whose UNAME is the name of a record in the registry - makes
`new_connection` return -1 with `client_list` and `num_clients` as they were. -/
theorem new_connection_reject_keeps_registry (env : Env)
    (ar : Nat → List Char → List Char → List Char) (socket : Int) (ip : List Char)
    (pk : rsa_key_t) (msg : List Char) (u : Indeterminate) (s : State)
    (h : (first_failed msg u s).isSome = true
      ∨ (s.client_list.length = s.num_clients + 1 ∧ s.client_list.length = MAXCLIENTS + 1)
      ∨ ∃ n, field_UNAME msg u = some n ∧ n ∈ s.client_list.map client_entry_t.uname) :
    ∃ s', new_connection env ar socket ip pk (some msg) u s = .ok (-1) s'
      ∧ s'.client_list = s.client_list ∧ s'.num_clients = s.num_clients := by
  have hf : (first_failed msg u s).isSome = true := by
    rcases h with h | ⟨h1, h2⟩ | ⟨n, hn, hmem⟩
    · exact h
    · exact first_failed_of_capacity msg u s (by omega)
    · exact first_failed_of_name msg u s n hn hmem
  obtain ⟨c, hc⟩ := Option.isSome_iff_exists.1 hf
  rw [new_connection_reject env ar socket ip pk msg u s c hc]
  exact ⟨_, rfl, rfl, rfl⟩

/-- Witness of C5: alice is in the registry and the request asks for alice. -/
theorem new_connection_reject_keeps_registry_witness :
    (∃ n, field_UNAME ex_request ex_indet = some n
        ∧ n ∈ ex_state1.client_list.map client_entry_t.uname)
    ∧ ∃ s', new_connection env_all_ok ex_accept_resp 7 "10.0.0.9".toList ex_pubkey
          (some ex_request) ex_indet ex_state1 = .ok (-1) s'
        ∧ s'.client_list = ex_state1.client_list ∧ s'.num_clients = ex_state1.num_clients :=
  ⟨⟨"alice".toList, by decide, by decide⟩,
   new_connection_reject_keeps_registry env_all_ok ex_accept_resp 7 "10.0.0.9".toList ex_pubkey
    ex_request ex_indet ex_state1 (Or.inr (Or.inr ⟨"alice".toList, by decide, by decide⟩))⟩

/-- C9, as stated, fails: the "Username already exists" response to a request
for a name that is taken goes through `send_encrypted_message`, under the key
the request declares. -/
theorem rejection_sent_encrypted :
    new_connection env_all_ok ex_accept_resp 7 "10.0.0.9".toList ex_pubkey
        (some ex_request) ex_indet ex_state1
      = .ok (-1) { ex_state1 with sent := [⟨7, UNAME_EXISTS, some ex_key, true⟩] }
    ∧ (some ex_key : Option rsa_key_t) ≠ none := by
  decide

/-- C9, amended: the response of a failed BASE, EXP or DIV step is sent as
plaintext (`send_message`); the response of the capacity step and of the two
UNAME steps is sent through `send_encrypted_message` under the declared key. -/
theorem rejection_plaintext_or_encrypted (env : Env)
    (ar : Nat → List Char → List Char → List Char) (socket : Int) (ip : List Char)
    (pk : rsa_key_t) (msg : List Char) (u : Indeterminate) (s : State) (c : Check)
    (h : first_failed msg u s = some c) :
    ∃ k, new_connection env ar socket ip pk (some msg) u s
        = .ok (-1) { s with
            sent := s.sent ++ [⟨socket, c.text, k, env.send_ok s.sent.length⟩] }
      ∧ (c ∈ [Check.missing_base, .invalid_base, .missing_exp, .invalid_exp, .missing_div,
              .invalid_div] → k = none)
      ∧ (c ∈ [Check.at_capacity, .missing_uname, .uname_exists]
          → k = some (declared_key msg u)) := by
  refine ⟨c.key msg u, ?_, ?_, ?_⟩
  · rw [new_connection_reject env ar socket ip pk msg u s c h]; rfl
  · intro hc; cases c <;> simp_all [Check.key]
  · intro hc; cases c <;> simp_all [Check.key]

/-- Witness of the amended C9. -/
theorem rejection_plaintext_or_encrypted_witness :
    first_failed ex_request ex_indet ex_state1 = some .uname_exists
    ∧ ∃ k, new_connection env_all_ok ex_accept_resp 7 "10.0.0.9".toList ex_pubkey
          (some ex_request) ex_indet ex_state1
        = .ok (-1) { ex_state1 with
            sent := ex_state1.sent
              ++ [⟨7, Check.text .uname_exists, k, env_all_ok.send_ok ex_state1.sent.length⟩] }
      ∧ (Check.uname_exists ∈ [Check.missing_base, .invalid_base, .missing_exp, .invalid_exp,
            .missing_div, .invalid_div] → k = none)
      ∧ (Check.uname_exists ∈ [Check.at_capacity, .missing_uname, .uname_exists]
          → k = some (declared_key ex_request ex_indet)) :=
  ⟨by decide, rejection_plaintext_or_encrypted env_all_ok ex_accept_resp 7 "10.0.0.9".toList
    ex_pubkey ex_request ex_indet ex_state1 .uname_exists (by decide)⟩

/-! ## `handle_client_message` -/

/-- C10, as stated, fails: when `receive_encrypted_message` returns -1 for
alice's socket, alice is still in the registry after the call. -/
theorem receive_failure_keeps_session :
    handle_client_message env_all_ok 4 (-1) [] ex_state1 = .ok (-1) ex_state1
    ∧ ex_alice ∈ ex_state1.client_list := by
  decide

/-- C10, amended: when `receive_encrypted_message` returns -1,
`handle_client_message` returns -1 and changes nothing: no record is removed
and nothing is sent. -/
theorem receive_failure_returns_error (env : Env) (socket : Int) (msg : List Char)
    (s : State) : handle_client_message env socket (-1) msg s = .ok (-1) s := by
  unfold handle_client_message
  cases get_client_with_socket socket s.client_list <;> simp

/-- C3: a disconnect arriving on the server socket makes `remove_client` unlink
and free the server record and then read the freed record: right after
`init_client_manager(3)` the list is left empty, and with alice connected the
list is left starting at alice. -/
theorem disconnect_on_server_socket_removes_head (env : Env) :
    handle_client_message env 3 11 DISCONNECT (init_client_manager 3)
      = .fault .use_after_free { init_client_manager 3 with client_list := [] }
    ∧ handle_client_message env 3 11 DISCONNECT ex_state1
      = .fault .use_after_free { ex_state1 with client_list := [ex_alice] } :=
  ⟨rfl, rfl⟩

/-! ## `broadcast` -/

/-- When the delivery that fails is the one to the last session, `broadcast`
dereferences the NULL `next_entry` of that session. -/
theorem broadcast_failure_at_last_session :
    broadcast ⟨fun n => n != 2, fun _ => 43200⟩ "alice".toList "hi".toList ex_state3
      = .fault .null_deref
          { ex_state3 with
            sent :=
              [⟨4, "(12:00:00) alice: hi".toList, some ex_key, true⟩,
               ⟨5, "(12:00:00) alice: hi".toList, some ex_key, true⟩,
               ⟨6, "(12:00:00) alice: hi".toList, some ex_key, false⟩] } := by
  decide

/-- C7: with three sessions and a failed delivery to the second, `broadcast`
evicts the third: carol is removed without having been sent the message, bob
stays. -/
theorem broadcast_failure_evicts_next :
    broadcast env_second_fails "alice".toList "hi".toList ex_state3
      = .ok (-1)
          { client_list := [ex_server, ex_alice, ex_bob]
            num_clients := 2
            sent :=
              [⟨4, "(12:00:00) alice: hi".toList, some ex_key, true⟩,
               ⟨5, "(12:00:00) alice: hi".toList, some ex_key, false⟩,
               ⟨4, "(12:00:00) SERVER: carol left the chat".toList, some ex_key, true⟩,
               ⟨5, "(12:00:00) SERVER: carol left the chat".toList, some ex_key, true⟩]
            next_addr := 4 } := by
  decide

/-! ## Unlinking preserves the shape of the registry -/

theorem unlink_sublist (socket : Int) :
    ∀ (l : List client_entry_t) (d : client_entry_t) (l' : List client_entry_t),
      unlink socket l = some (d, l') → l'.Sublist l ∧ l.length = l'.length + 1 := by
  intro l
  induction l with
  | nil => intro d l' h; simp [unlink] at h
  | cons e es ih =>
    intro d l' h
    simp only [unlink] at h
    split at h
    · simp only [Option.some.injEq, Prod.mk.injEq] at h
      obtain ⟨-, rfl⟩ := h
      exact ⟨List.sublist_cons_self _ _, rfl⟩
    · split at h
      · simp at h
      · rename_i d0 es0 heq
        simp only [Option.some.injEq, Prod.mk.injEq] at h
        obtain ⟨-, rfl⟩ := h
        obtain ⟨h1, h2⟩ := ih d0 es0 heq
        exact ⟨h1.cons₂ e, by simp [h2]⟩

theorem dec_u32_pos (n : Nat) (h1 : 1 ≤ n) (h2 : n < 2 ^ 32) : dec_u32 n = n - 1 := by
  unfold dec_u32
  omega

theorem inc_u32_small (n : Nat) (h : n + 1 < 2 ^ 32) : inc_u32 n = n + 1 := by
  unfold inc_u32
  omega

theorem Shrinks.refl (s : State) : Shrinks s s :=
  ⟨List.Sublist.refl _, rfl, fun _ => rfl, rfl⟩

theorem Shrinks.length_le {s s' : State} (h : Shrinks s s') :
    s'.client_list.length ≤ s.client_list.length := by
  simpa using h.sub.length_le

theorem Shrinks.counted {s s' : State} (h : Shrinks s s') (hc : Counted s) : Counted s' := by
  have h1 := h.count hc
  have h2 := h.length_le
  unfold Counted at *
  omega

theorem Shrinks.trans {s1 s2 s3 : State} (h12 : Shrinks s1 s2) (h23 : Shrinks s2 s3) :
    Shrinks s1 s3 :=
  ⟨h23.sub.trans h12.sub, h23.head.trans h12.head,
    fun hc => by have := h12.count hc; have := h23.count (h12.counted hc); omega,
    h23.addr.trans h12.addr⟩

theorem Shrinks.of_eq {s s' : State} (h1 : s'.client_list = s.client_list)
    (h2 : s'.num_clients = s.num_clients) (h3 : s'.next_addr = s.next_addr) : Shrinks s s' :=
  ⟨by rw [h1], by rw [h1], fun _ => by rw [h1, h2], h3⟩

theorem Shrinks.send {s : State} (env : Env) (socket : Int) (text : List Char)
    (key : Option rsa_key_t) : Shrinks s (send env socket text key s).2 :=
  Shrinks.of_eq rfl rfl rfl

theorem Shrinks.ne_nil {s s' : State} (h : Shrinks s s') (hs : s.client_list ≠ []) :
    s'.client_list ≠ [] := by
  intro hnil
  have := h.head
  cases hl : s.client_list with
  | nil => exact hs hl
  | cons x xs => simp [hnil, hl] at this

theorem send_eq (env : Env) (socket : Int) (text : List Char) (key : Option rsa_key_t)
    (s : State) (b : Bool) (s1 : State) (h : send env socket text key s = (b, s1)) :
    s1 = (send env socket text key s).2 := by
  rw [h]

/-- Whenever `broadcast` or `remove_client` returns, the registry has only
lost records other than its first one, and `num_clients` has followed. -/
theorem shrinks_aux (fuel : Nat) :
    (∀ env outgoing it result s r s',
        broadcast_loop fuel env outgoing it result s = .ok r s' → Shrinks s s')
    ∧ (∀ env uname msg s r s',
        broadcast_aux fuel env uname msg s = .ok r s' → Shrinks s s')
    ∧ (∀ env socket s r s',
        remove_client_aux fuel env socket s = .ok r s' → Shrinks s s') := by
  induction fuel with
  | zero =>
    refine ⟨?_, ?_, ?_⟩
    · intro env outgoing it result s r s' h; simp [broadcast_loop] at h
    · intro env uname msg s r s' h; simp [broadcast_aux] at h
    · intro env socket s r s' h; simp [remove_client_aux] at h
  | succ fuel ih =>
    obtain ⟨ihl, ihb, ihr⟩ := ih
    refine ⟨?_, ?_, ?_⟩
    · intro env outgoing it result s r s' h
      cases it with
      | none =>
        simp only [broadcast_loop, Outcome.ok.injEq] at h
        rw [← h.2]; exact Shrinks.refl s
      | some a =>
        rw [broadcast_loop] at h
        split at h
        · simp at h
        · rename_i e rest hd
          split at h
          · rename_i s1 hs
            have hs1 := send_eq _ _ _ _ _ _ _ hs
            have h01 : Shrinks s s1 := hs1 ▸ Shrinks.send env _ _ _
            exact h01.trans (ihl _ _ _ _ _ _ _ h)
          · rename_i s1 hs
            have hs1 := send_eq _ _ _ _ _ _ _ hs
            have h01 : Shrinks s s1 := hs1 ▸ Shrinks.send env _ _ _
            split at h
            · simp at h
            · rename_i nx tl
              split at h
              · simp at h
              · rename_i r2 s2 hrm
                have h12 := ihr _ _ _ _ _ hrm
                split at h
                · simp at h
                · split at h
                  · simp at h
                  · exact (h01.trans h12).trans (ihl _ _ _ _ _ _ _ h)
    · intro env uname msg s r s' h
      rw [broadcast_aux] at h
      split at h
      · simp at h
      · exact ihl _ _ _ _ _ _ _ h
    · intro env socket s r s' h
      rw [remove_client_aux] at h
      split at h
      · simp at h
      · rename_i hd rest hl
        split at h
        · simp at h
        · split at h
          · simp only [Outcome.ok.injEq] at h
            rw [← h.2]; exact Shrinks.refl s
          · rename_i deletethis rest' hu
            obtain ⟨hsub, hlen⟩ := unlink_sublist _ _ _ _ hu
            simp only at h
            split at h
            · simp at h
            · rename_i r2 s2 hb
              simp only [Outcome.ok.injEq] at h
              have h12 := ihb _ _ _ _ _ _ hb
              rw [← h.2]
              refine ⟨?_, ?_, ?_, ?_⟩
              · simp only
                refine h12.sub.trans ?_
                rw [hl]
                exact ((hsub.cons₂ hd).map forget)
              · simp only
                rw [h12.head, hl]
                rfl
              · intro hc
                have hc1 : Counted { s with client_list := hd :: rest' } := by
                  unfold Counted at *
                  simp only [List.length_cons]
                  rw [hl] at hc
                  simp only [List.length_cons] at hc
                  omega
                have hc2 := h12.counted hc1
                have hne : s2.client_list ≠ [] := h12.ne_nil (by simp)
                have hpos : 1 ≤ s2.client_list.length := by
                  cases hs2 : s2.client_list with
                  | nil => exact absurd hs2 hne
                  | cons _ _ => simp
                have hcnt := h12.count hc1
                simp only [List.length_cons] at hcnt
                unfold Counted at hc hc2
                rw [hl] at hc
                simp only [List.length_cons] at hc
                have hdec : dec_u32 s2.num_clients = s2.num_clients - 1 :=
                  dec_u32_pos _ (by omega) hc2.2
                simp only [hdec, hl, List.length_cons]
                omega
              · exact h12.addr

theorem bump_forget (a : Nat) (l : List client_entry_t) :
    (bump a l).map forget = l.map forget := by
  induction l with
  | nil => rfl
  | cons e es ih =>
    simp only [bump]
    split
    · rfl
    · simp [ih]

theorem reset_forget (a : Nat) (l : List client_entry_t) :
    (reset a l).map forget = l.map forget := by
  induction l with
  | nil => rfl
  | cons e es ih =>
    simp only [reset]
    split
    · rfl
    · simp [ih]

theorem Shrinks.of_forget_eq {s s' : State}
    (h1 : s'.client_list.map forget = s.client_list.map forget)
    (h2 : s'.num_clients = s.num_clients) (h3 : s'.next_addr = s.next_addr) : Shrinks s s' := by
  have hlen : s'.client_list.length = s.client_list.length := by
    simpa using congrArg List.length h1
  refine ⟨by rw [h1], ?_, fun _ => by rw [h2, hlen], h3⟩
  rw [← List.head?_map, ← List.head?_map, h1]

/-- Whenever the loop of `heartbeat` ends, the registry has only lost records
other than its first one. -/
theorem heartbeat_loop_shrinks (fuel : Nat) :
    ∀ env it s s', heartbeat_loop fuel env it s = .ok () s' → Shrinks s s' := by
  induction fuel with
  | zero => intro env it s s' h; simp [heartbeat_loop] at h
  | succ fuel ih =>
    intro env it s s' h
    rw [heartbeat_loop] at h
    split at h
    · simp at h
    · simp only [Outcome.ok.injEq, true_and] at h
      rw [← h]; exact Shrinks.refl s
    · rename_i nx tl hd
      split at h
      · split at h
        · simp at h
        · rename_i r2 s2 hrm
          have h12 := (shrinks_aux fuel).2.2 _ _ _ _ _ hrm
          split at h
          · simp at h
          · exact h12.trans (ih _ _ _ _ h)
      · split at h
        · rename_i s1 hs
          have hs1 := send_eq _ _ _ _ _ _ _ hs
          have h01 : Shrinks s s1 := hs1 ▸ Shrinks.send env _ _ _
          have h1b : Shrinks s1 { s1 with client_list := bump nx.addr s1.client_list } :=
            Shrinks.of_forget_eq (bump_forget _ _) rfl rfl
          exact (h01.trans h1b).trans (ih _ _ _ _ h)
        · rename_i s1 hs
          have hs1 := send_eq _ _ _ _ _ _ _ hs
          have h01 : Shrinks s s1 := hs1 ▸ Shrinks.send env _ _ _
          split at h
          · simp at h
          · rename_i r2 s2 hrm
            have h12 := (shrinks_aux fuel).2.2 _ _ _ _ _ hrm
            split at h
            · simp at h
            · split at h
              · simp at h
              · simp at h
              · rename_i n2 tl2 hd2
                have h2b : Shrinks s2 { s2 with client_list := bump n2.addr s2.client_list } :=
                  Shrinks.of_forget_eq (bump_forget _ _) rfl rfl
                have h0b := (h01.trans h12).trans h2b
                exact h0b.trans (ih _ _ _ _ h)

theorem Inv.to_counted {σ : Int} {s : State} (h : Inv σ s) : Counted s := by
  have h1 := h.count
  have h2 := h.capacity
  unfold Counted MAXCLIENTS at *
  omega

theorem Inv.shrinks {σ : Int} {s s' : State} (h : Inv σ s) (hs : Shrinks s s') : Inv σ s' := by
  have hn : s'.client_list.map client_entry_t.uname
      = (s'.client_list.map forget).map client_entry_t.uname := by
    simp [List.map_map, Function.comp_def, forget]
  have hn0 : s.client_list.map client_entry_t.uname
      = (s.client_list.map forget).map client_entry_t.uname := by
    simp [List.map_map, Function.comp_def, forget]
  have ha : s'.client_list.map client_entry_t.addr
      = (s'.client_list.map forget).map client_entry_t.addr := by
    simp [List.map_map, Function.comp_def, forget]
  have ha0 : s.client_list.map client_entry_t.addr
      = (s.client_list.map forget).map client_entry_t.addr := by
    simp [List.map_map, Function.comp_def, forget]
  have hc := hs.count h.to_counted
  have hl := hs.length_le
  have hcount := h.count
  have hcap := h.capacity
  refine ⟨hs.head.trans h.head, ?_, by omega, by omega, ?_, ?_⟩
  · rw [hn]
    exact List.Nodup.sublist (hs.sub.map _) (hn0 ▸ h.names)
  · rw [ha]
    exact List.Nodup.sublist (hs.sub.map _) (ha0 ▸ h.addrs)
  · intro e he
    have hmem : e.addr ∈ (s'.client_list.map forget).map client_entry_t.addr := by
      rw [← ha]; exact List.mem_map_of_mem _ he
    have hmem0 := (hs.sub.map client_entry_t.addr).subset hmem
    rw [← ha0] at hmem0
    obtain ⟨e0, he0, heq⟩ := List.mem_map.1 hmem0
    rw [hs.addr, ← heq]
    exact h.fresh e0 he0

theorem Inv.of_sent {σ : Int} {s s' : State} (h : Inv σ s)
    (h1 : s'.client_list = s.client_list) (h2 : s'.num_clients = s.num_clients)
    (h3 : s'.next_addr = s.next_addr) : Inv σ s' :=
  h.shrinks (Shrinks.of_eq h1 h2 h3)

theorem init_inv (σ : Int) : Inv σ (init_client_manager σ) :=
  ⟨rfl, by simp [init_client_manager], rfl, by simp [init_client_manager],
    by simp [init_client_manager], by simp [init_client_manager]⟩

/-! ## The invariant is kept by every call that returns -/

theorem new_connection_admit (env : Env) (ar : Nat → List Char → List Char → List Char)
    (socket : Int) (ip : List Char) (pk : rsa_key_t) (msg : List Char) (u : Indeterminate)
    (s : State) (h : first_failed msg u s = none) :
    ∃ n, field_UNAME msg u = some n
      ∧ s.client_list.any (fun e => n = e.uname) = false
      ∧ s.num_clients ≠ MAXCLIENTS
      ∧ (2 ≤ req_base msg u ∧ req_base msg u ≤ 62)
      ∧ new_connection env ar socket ip pk (some msg) u s
          = admit_client env (ar pk.b pk.e pk.d)
              ⟨s.next_addr, socket, ip, n, declared_key msg u, u.missed_beats⟩
              { s with next_addr := s.next_addr + 1 } := by
  unfold new_connection
  simp only [first_failed, spec_checks, List.find?, Check.fails, req_base, declared_key] at h ⊢
  cases hb : field_BASE msg u with
  | none => simp [hb] at h
  | some b =>
    simp only [hb, Option.isNone_some] at h ⊢
    by_cases h1 : base_of b < 2 ∨ base_of b > 62
    · simp [h1] at h
    · simp only [h1, decide_False, if_false] at h ⊢
      cases he : field_EXP msg u with
      | none => simp [he] at h
      | some e =>
        simp only [he, Option.isNone_some] at h ⊢
        cases h2 : mpz_is_zero e (base_of b) with
        | true => simp [h2] at h
        | false =>
          simp only [h2] at h ⊢
          cases hd : field_DIV msg u with
          | none => simp [hd] at h
          | some d =>
            simp only [hd, Option.isNone_some] at h ⊢
            cases h3 : mpz_is_zero d (base_of b) with
            | true => simp [h3] at h
            | false =>
              simp only [h3] at h ⊢
              by_cases h4 : s.num_clients = MAXCLIENTS
              · simp [h4] at h
              · simp only [h4, decide_False, if_false] at h ⊢
                cases hn : field_UNAME msg u with
                | none => simp [hn] at h
                | some n =>
                  simp only [hn, Option.isNone_some] at h ⊢
                  cases h5 : s.client_list.any (fun e => n = e.uname) with
                  | true => simp [h5] at h
                  | false =>
                    refine ⟨n, rfl, h5, by simpa using h4, by omega, ?_⟩
                    simp [validate_uname, h5]

theorem Inv.next_addr {σ : Int} {s : State} (h : Inv σ s) :
    Inv σ { s with next_addr := s.next_addr + 1 } :=
  ⟨h.head, h.names, h.count, h.capacity, h.addrs,
    fun e he => Nat.lt_succ_of_lt (h.fresh e he)⟩

theorem Inv.append {σ : Int} {s : State} (h : Inv σ s) (x : client_entry_t)
    (hname : x.uname ∉ s.client_list.map client_entry_t.uname)
    (hcap : s.num_clients ≠ MAXCLIENTS) (haddr : x.addr < s.next_addr)
    (hfresh : ∀ e ∈ s.client_list, e.addr < x.addr) :
    Inv σ { s with client_list := s.client_list ++ [x]
                   num_clients := inc_u32 s.num_clients } := by
  have hcount := h.count
  have hcapacity := h.capacity
  have hinc : inc_u32 s.num_clients = s.num_clients + 1 := by
    apply inc_u32_small
    unfold MAXCLIENTS at hcapacity
    omega
  have hne : s.client_list ≠ [] := by
    intro hnil
    rw [hnil] at hcount
    simp at hcount
  refine ⟨?_, ?_, ?_, ?_, ?_, ?_⟩
  · simp only
    rw [List.head?_append_of_ne_nil _ hne]
    exact h.head
  · simp only [List.map_append, List.map_cons, List.map_nil]
    rw [List.nodup_append]
    refine ⟨h.names, List.nodup_singleton _, ?_⟩
    intro a ha hb
    simp only [List.mem_singleton] at hb
    exact hname (hb ▸ ha)
  · simp only [List.length_append, List.length_cons, List.length_nil, hinc]
    omega
  · simp only [hinc]
    unfold MAXCLIENTS at *
    omega
  · simp only [List.map_append, List.map_cons, List.map_nil]
    rw [List.nodup_append]
    refine ⟨h.addrs, List.nodup_singleton _, ?_⟩
    intro a ha hb
    simp only [List.mem_singleton] at hb
    obtain ⟨e, he, rfl⟩ := List.mem_map.1 ha
    have := hfresh e he
    omega
  · intro e he
    simp only [List.mem_append, List.mem_singleton] at he
    rcases he with he | rfl
    · exact h.fresh e he
    · exact haddr

theorem not_mem_names_of_any {n : List Char} {l : List client_entry_t}
    (h : l.any (fun e => n = e.uname) = false) : n ∉ l.map client_entry_t.uname := by
  intro hmem
  obtain ⟨e, he, rfl⟩ := List.mem_map.1 hmem
  have : l.any (fun e' => e.uname = e'.uname) = true :=
    List.any_eq_true.2 ⟨e, he, by simp⟩
  rw [h] at this
  exact Bool.false_ne_true this

theorem admit_client_inv {σ : Int} (env : Env) (resp : List Char) (x : client_entry_t)
    (s : State) (r : Int) (s' : State) (h : Inv σ s)
    (hname : x.uname ∉ s.client_list.map client_entry_t.uname)
    (hcap : s.num_clients ≠ MAXCLIENTS) (haddr : x.addr < s.next_addr)
    (hfresh : ∀ e ∈ s.client_list, e.addr < x.addr)
    (hres : admit_client env resp x s = .ok r s') : Inv σ s' := by
  unfold admit_client at hres
  split at hres
  · rename_i s1 hs
    have hs1 := send_eq _ _ _ _ _ _ _ hs
    simp only [Outcome.ok.injEq] at hres
    rw [← hres.2, hs1]
    exact h.of_sent rfl rfl rfl
  · rename_i s1 hs
    have hs1 := send_eq _ _ _ _ _ _ _ hs
    have h1 : Inv σ s1 := hs1 ▸ h.of_sent rfl rfl rfl
    have hl1 : s1.client_list = s.client_list := by rw [hs1]; rfl
    have hn1 : s1.num_clients = s.num_clients := by rw [hs1]; rfl
    have ha1 : s1.next_addr = s.next_addr := by rw [hs1]; rfl
    split at hres
    · simp at hres
    · simp only at hres
      have h2 := h1.append x (hl1 ▸ hname) (hn1 ▸ hcap) (ha1 ▸ haddr) (hl1 ▸ hfresh)
      split at hres
      · simp at hres
      · rename_i r3 s3 hb
        have h23 := (shrinks_aux _).2.1 _ _ _ _ _ _ hb
        have h3 := h2.shrinks h23
        split at hres <;>
          (simp only [Outcome.ok.injEq] at hres; rw [← hres.2]; exact h3)

theorem new_connection_inv {σ : Int} (env : Env)
    (ar : Nat → List Char → List Char → List Char) (socket : Int) (ip : List Char)
    (pk : rsa_key_t) (recv : Option (List Char)) (u : Indeterminate) (s : State) (r : Int)
    (s' : State) (h : Inv σ s)
    (hres : new_connection env ar socket ip pk recv u s = .ok r s') : Inv σ s' := by
  cases recv with
  | none =>
    simp only [new_connection, Outcome.ok.injEq] at hres
    rw [← hres.2]; exact h
  | some msg =>
    cases hf : first_failed msg u s with
    | some c =>
      rw [new_connection_reject env ar socket ip pk msg u s c hf] at hres
      simp only [reject, Outcome.ok.injEq] at hres
      rw [← hres.2]
      exact h.of_sent rfl rfl rfl
    | none =>
      obtain ⟨n, -, hany, hcap, -, heq⟩ := new_connection_admit env ar socket ip pk msg u s hf
      rw [heq] at hres
      refine admit_client_inv env _ _ _ r s' h.next_addr ?_ hcap ?_ ?_ hres
      · exact not_mem_names_of_any hany
      · exact Nat.lt_succ_self _
      · exact h.fresh

theorem handle_client_message_inv {σ : Int} (env : Env) (socket : Int) (len : Int)
    (msg : List Char) (s : State) (r : Int) (s' : State) (h : Inv σ s)
    (hres : handle_client_message env socket len msg s = .ok r s') : Inv σ s' := by
  unfold handle_client_message at hres
  split at hres
  · simp only [Outcome.ok.injEq] at hres
    rw [← hres.2]; exact h
  · split at hres
    · simp only [Outcome.ok.injEq] at hres
      rw [← hres.2]; exact h
    · split at hres
      · split at hres
        · simp at hres
        · rename_i r1 s1 hrm
          have h1 := h.shrinks ((shrinks_aux _).2.2 _ _ _ _ _ hrm)
          split at hres <;>
            (simp only [Outcome.ok.injEq] at hres; rw [← hres.2]; exact h1)
      · split at hres
        · simp only [Outcome.ok.injEq] at hres
          rw [← hres.2]
          exact h.shrinks (Shrinks.of_forget_eq (reset_forget _ _) rfl rfl)
        · split at hres
          · simp at hres
          · rename_i r1 s1 hb
            have h1 := h.shrinks ((shrinks_aux _).2.1 _ _ _ _ _ _ hb)
            split at hres <;>
              (simp only [Outcome.ok.injEq] at hres; rw [← hres.2]; exact h1)

theorem heartbeat_inv {σ : Int} (env : Env) (s s' : State) (h : Inv σ s)
    (hres : heartbeat env s = .ok () s') : Inv σ s' := by
  unfold heartbeat at hres
  split at hres
  · simp at hres
  · exact h.shrinks (heartbeat_loop_shrinks _ _ _ _ _ hres)

/-- Every reachable state satisfies the registry invariant. -/
theorem reachable_inv {σ : Int} {s : State} (hr : Reachable σ s) : Inv σ s := by
  induction hr with
  | init => exact init_inv σ
  | new_connection env ar socket ip pk recv u _ hres ih =>
    exact new_connection_inv env ar socket ip pk recv u _ _ _ ih hres
  | handle_client_message env socket len msg _ hres ih =>
    exact handle_client_message_inv env socket len msg _ _ _ ih hres
  | heartbeat env _ hres ih => exact heartbeat_inv env _ _ ih hres

/-! ## Registry invariants -/

/-- C1: in every state reachable from `init_client_manager` no two records of
the registry carry the same name; and while a record with some name is in the
registry, a handshake asking for that name is not admitted: `new_connection`
returns -1 and the registry stays as it is. -/
theorem names_unique (σ : Int) (s : State) (hr : Reachable σ s) :
    (s.client_list.map client_entry_t.uname).Nodup
    ∧ ∀ (env : Env) (ar : Nat → List Char → List Char → List Char) (socket : Int)
        (ip : List Char) (pk : rsa_key_t) (msg : List Char) (u : Indeterminate)
        (n : List Char),
        field_UNAME msg u = some n → n ∈ s.client_list.map client_entry_t.uname →
        ∃ s', new_connection env ar socket ip pk (some msg) u s = .ok (-1) s'
          ∧ s'.client_list = s.client_list ∧ s'.num_clients = s.num_clients := by
  refine ⟨(reachable_inv hr).names, ?_⟩
  intro env ar socket ip pk msg u n hn hmem
  obtain ⟨c, hc⟩ := Option.isSome_iff_exists.1 (first_failed_of_name msg u s n hn hmem)
  rw [new_connection_reject env ar socket ip pk msg u s c hc]
  exact ⟨_, rfl, rfl, rfl⟩

/-- C2: in every state reachable from `init_client_manager` the registry holds
at most `MAXCLIENTS` = 10 records besides the first, and `num_clients` is their
number. -/
theorem sessions_le_capacity (σ : Int) (s : State) (hr : Reachable σ s) :
    s.client_list.tail.length ≤ MAXCLIENTS ∧ MAXCLIENTS = 10
    ∧ s.client_list.tail.length = s.num_clients := by
  have h := reachable_inv hr
  have h1 := h.count
  have h2 := h.capacity
  simp only [List.length_tail]
  exact ⟨by omega, rfl, by omega⟩

/-- The example state `ex_admitted` is reachable. -/
theorem ex_admitted_reachable : Reachable 3 ex_admitted :=
  Reachable.new_connection env_all_ok ex_accept_resp 7 "10.0.0.9".toList ex_pubkey
    (some ex_request) ex_indet Reachable.init
    (by decide : new_connection env_all_ok ex_accept_resp 7 "10.0.0.9".toList ex_pubkey
      (some ex_request) ex_indet (init_client_manager 3) = .ok 0 ex_admitted)

/-- Witness of C1: after alice is admitted, a second request for alice. -/
theorem names_unique_witness :
    Reachable 3 ex_admitted
    ∧ (ex_admitted.client_list.map client_entry_t.uname).Nodup
    ∧ ∀ (env : Env) (ar : Nat → List Char → List Char → List Char) (socket : Int)
        (ip : List Char) (pk : rsa_key_t) (msg : List Char) (u : Indeterminate)
        (n : List Char),
        field_UNAME msg u = some n → n ∈ ex_admitted.client_list.map client_entry_t.uname →
        ∃ s', new_connection env ar socket ip pk (some msg) u ex_admitted = .ok (-1) s'
          ∧ s'.client_list = ex_admitted.client_list
          ∧ s'.num_clients = ex_admitted.num_clients :=
  ⟨ex_admitted_reachable, names_unique 3 ex_admitted ex_admitted_reachable⟩

/-- Witness of C2. -/
theorem sessions_le_capacity_witness :
    Reachable 3 ex_admitted
    ∧ ex_admitted.client_list.tail.length ≤ MAXCLIENTS ∧ MAXCLIENTS = 10
    ∧ ex_admitted.client_list.tail.length = ex_admitted.num_clients :=
  ⟨ex_admitted_reachable, sessions_le_capacity 3 ex_admitted ex_admitted_reachable⟩

/-! ## `broadcast` and `remove_client` when every send succeeds -/

theorem fuel_bound_ge (n : Nat) : 2 * n + 4 ≤ fuel_bound n := by
  unfold fuel_bound
  nlinarith

theorem deref_split (pre : List client_entry_t) (e : client_entry_t)
    (rest : List client_entry_t) (h : e.addr ∉ pre.map client_entry_t.addr) :
    deref e.addr (pre ++ e :: rest) = some (e, rest) := by
  induction pre with
  | nil => simp [deref]
  | cons p ps ih =>
    simp only [List.map_cons, List.mem_cons, not_or] at h
    simp only [List.cons_append, deref]
    rw [if_neg (fun hp => h.1 hp.symm)]
    exact ih h.2

theorem not_mem_pre_of_nodup {pre : List client_entry_t} {e : client_entry_t}
    {rest : List client_entry_t}
    (h : ((pre ++ e :: rest).map client_entry_t.addr).Nodup) :
    e.addr ∉ pre.map client_entry_t.addr := by
  simp only [List.map_append, List.map_cons] at h
  intro hmem
  have := (List.nodup_append.1 h).2.2 hmem
  exact this (List.mem_cons_self _ _)

theorem broadcast_loop_all_ok (env : Env) (hok : ∀ n, env.send_ok n = true)
    (outgoing : List Char) (result : Int) :
    ∀ (rest pre : List client_entry_t) (fuel : Nat) (s : State),
      s.client_list = pre ++ rest → (s.client_list.map client_entry_t.addr).Nodup →
      rest.length < fuel →
      broadcast_loop fuel env outgoing (ptr rest) result s
        = .ok result { s with sent := s.sent ++ rest.map (delivered outgoing) } := by
  intro rest
  induction rest with
  | nil =>
    intro pre fuel s _ _ hf
    cases fuel with
    | zero => omega
    | succ f => simp [ptr, broadcast_loop]
  | cons e rest ih =>
    intro pre fuel s hl hnd hf
    cases fuel with
    | zero => omega
    | succ f =>
      have hd : deref e.addr s.client_list = some (e, rest) := by
        rw [hl]; exact deref_split pre e rest (not_mem_pre_of_nodup (hl ▸ hnd))
      simp only [ptr, List.head?_cons, Option.map_some', broadcast_loop, hd, send, hok]
      have := ih (pre ++ [e]) f
        { s with sent := s.sent ++ [⟨e.socket, outgoing, some e.key, true⟩] }
        (by simp [hl]) hnd (by simpa using hf)
      simp only [ptr] at this
      rw [this]
      simp [delivered]

theorem broadcast_aux_all_ok (env : Env) (hok : ∀ n, env.send_ok n = true)
    (uname msg : List Char) (hd : client_entry_t) (rest : List client_entry_t) (fuel : Nat)
    (s : State) (hl : s.client_list = hd :: rest)
    (hnd : (s.client_list.map client_entry_t.addr).Nodup) (hf : rest.length + 1 < fuel) :
    broadcast_aux fuel env uname msg s
      = .ok 0 { s with
          sent := s.sent ++ rest.map
            (delivered (outgoing_fmt (strftime_HMS (env.clock s.sent.length)) uname msg)) } := by
  cases fuel with
  | zero => omega
  | succ f =>
    have h := broadcast_loop_all_ok env hok
      (outgoing_fmt (strftime_HMS (env.clock s.sent.length)) uname msg) 0 rest [hd] f s hl hnd
      (by omega)
    rw [broadcast_aux]
    simp only [hl] at h ⊢
    exact h

theorem broadcast_all_ok (env : Env) (hok : ∀ n, env.send_ok n = true)
    (uname msg : List Char) (hd : client_entry_t) (rest : List client_entry_t)
    (s : State) (hl : s.client_list = hd :: rest)
    (hnd : (s.client_list.map client_entry_t.addr).Nodup) :
    broadcast env uname msg s
      = .ok 0 { s with
          sent := s.sent ++ rest.map
            (delivered (outgoing_fmt (strftime_HMS (env.clock s.sent.length)) uname msg)) } := by
  refine broadcast_aux_all_ok env hok uname msg hd rest _ s hl hnd ?_
  have := fuel_bound_ge s.client_list.length
  rw [hl] at this ⊢
  simp only [List.length_cons] at this ⊢
  omega

theorem remove_client_aux_all_ok (env : Env) (hok : ∀ n, env.send_ok n = true)
    (socket : Int) (hd : client_entry_t) (rest : List client_entry_t)
    (d : client_entry_t) (rest' : List client_entry_t) (fuel : Nat) (s : State)
    (hl : s.client_list = hd :: rest)
    (hnd : (s.client_list.map client_entry_t.addr).Nodup)
    (hsock : hd.socket ≠ socket) (hu : unlink socket rest = some (d, rest'))
    (hf : rest.length + 1 < fuel) :
    remove_client_aux fuel env socket s
      = .ok 0 { s with
          client_list := hd :: rest'
          num_clients := dec_u32 s.num_clients
          sent := s.sent ++ rest'.map
            (delivered (outgoing_fmt (strftime_HMS (env.clock s.sent.length)) SERVER
              (leavemsg_fmt d.uname))) } := by
  cases fuel with
  | zero => omega
  | succ f =>
    obtain ⟨hsub, hlen⟩ := unlink_sublist _ _ _ _ hu
    rw [remove_client_aux]
    simp only [hl, hsock, if_false, hu]
    rw [broadcast_aux_all_ok env hok SERVER _ hd rest' f _ rfl]
    · simp only at hnd ⊢
      rw [hl] at hnd
      exact List.Nodup.sublist ((hsub.cons₂ hd).map _) hnd
    · omega

/-! ## Admission -/

/-- C6: a request whose BASE is in [2,62], whose EXP and DIV are not zero and
whose UNAME is not in the registry, made in a well-formed state with fewer than
10 sessions while every send succeeds, is admitted: `new_connection` returns 0,
the registry is the previous one followed by one record with the caller's
socket, address, UNAME and declared key, `validate_uname` now finds the name,
the number of sessions and `num_clients` have grown by one, and every session
that was there before has been sent "(<time>) SERVER: <UNAME> joined the
chat" under its own key. -/
theorem new_connection_admits (env : Env) (ar : Nat → List Char → List Char → List Char)
    (socket : Int) (ip : List Char) (pk : rsa_key_t) (msg : List Char) (u : Indeterminate)
    (s : State) (b e d n : List Char)
    (hok : ∀ k, env.send_ok k = true) (hwf : WF s)
    (hcap : s.client_list.tail.length < MAXCLIENTS)
    (hB : field_BASE msg u = some b) (hb : 2 ≤ base_of b ∧ base_of b ≤ 62)
    (hE : field_EXP msg u = some e) (he : mpz_is_zero e (base_of b) = false)
    (hD : field_DIV msg u = some d) (hd : mpz_is_zero d (base_of b) = false)
    (hN : field_UNAME msg u = some n)
    (hn : n ∉ s.client_list.map client_entry_t.uname) :
    ∃ s', new_connection env ar socket ip pk (some msg) u s = .ok 0 s'
      ∧ s'.client_list = s.client_list
          ++ [⟨s.next_addr, socket, ip, n, ⟨(base_of b).toNat, d, e⟩, u.missed_beats⟩]
      ∧ validate_uname n s'.client_list = -1
      ∧ s'.client_list.tail.length = s.client_list.tail.length + 1
      ∧ s'.num_clients = s.num_clients + 1
      ∧ ∀ x ∈ s.client_list.tail,
          delivered (outgoing_fmt (strftime_HMS (env.clock (s.sent.length + 1))) SERVER
            (joinmsg_fmt n)) x ∈ s'.sent := by
  have hcount := hwf.count
  have hnum : s.num_clients < MAXCLIENTS := by
    simp only [List.length_tail] at hcap
    omega
  have hnum' : s.num_clients ≠ MAXCLIENTS := Nat.ne_of_lt hnum
  have hany : s.client_list.any (fun e => n = e.uname) = false := by
    rw [Bool.eq_false_iff]
    intro h
    obtain ⟨x, hx, hxn⟩ := List.any_eq_true.1 h
    exact hn (List.mem_map.2 ⟨x, hx, (of_decide_eq_true hxn).symm⟩)
  have hb' : ¬ (base_of b < 2 ∨ base_of b > 62) := by omega
  obtain ⟨hd0, rest, hl⟩ : ∃ hd0 rest, s.client_list = hd0 :: rest := by
    cases hs : s.client_list with
    | nil => rw [hs] at hcount; simp at hcount
    | cons x xs => exact ⟨x, xs, rfl⟩
  have hinc : inc_u32 s.num_clients = s.num_clients + 1 := by
    apply inc_u32_small
    unfold MAXCLIENTS at hnum
    omega
  have hnd2 : ((s.client_list
      ++ [(⟨s.next_addr, socket, ip, n, ⟨(base_of b).toNat, d, e⟩, u.missed_beats⟩ :
            client_entry_t)]).map client_entry_t.addr).Nodup := by
    simp only [List.map_append, List.map_cons, List.map_nil]
    rw [List.nodup_append]
    refine ⟨hwf.addrs, List.nodup_singleton _, ?_⟩
    intro a ha hb2
    simp only [List.mem_singleton] at hb2
    obtain ⟨x, hx, rfl⟩ := List.mem_map.1 ha
    have := hwf.fresh x hx
    omega
  have hbc := broadcast_all_ok env hok SERVER (joinmsg_fmt n) hd0
    (rest ++ [(⟨s.next_addr, socket, ip, n, ⟨(base_of b).toNat, d, e⟩, u.missed_beats⟩ :
            client_entry_t)])
    { client_list := s.client_list
        ++ [⟨s.next_addr, socket, ip, n, ⟨(base_of b).toNat, d, e⟩, u.missed_beats⟩]
      num_clients := inc_u32 s.num_clients
      sent := s.sent ++ [⟨socket, ar pk.b pk.e pk.d, some ⟨(base_of b).toNat, d, e⟩, true⟩]
      next_addr := s.next_addr + 1 }
    (by simp [hl]) hnd2
  have heq : new_connection env ar socket ip pk (some msg) u s
      = .ok 0
          { client_list := s.client_list
              ++ [⟨s.next_addr, socket, ip, n, ⟨(base_of b).toNat, d, e⟩, u.missed_beats⟩]
            num_clients := inc_u32 s.num_clients
            sent := s.sent
              ++ [⟨socket, ar pk.b pk.e pk.d, some ⟨(base_of b).toNat, d, e⟩, true⟩]
              ++ (rest ++ [(⟨s.next_addr, socket, ip, n, ⟨(base_of b).toNat, d, e⟩,
                    u.missed_beats⟩ : client_entry_t)]).map
                  (delivered (outgoing_fmt (strftime_HMS (env.clock (s.sent.length + 1)))
                    SERVER (joinmsg_fmt n)))
            next_addr := s.next_addr + 1 } := by
    simp only [new_connection, hB, hb', if_false, hE, he, hD, hd, hnum', hN, validate_uname,
      hany, admit_client, send, hok]
    rw [hl]
    simp only [List.cons_append]
    rw [hl] at hbc
    simp only [List.cons_append] at hbc
    rw [hbc]
    simp
  refine ⟨_, heq, rfl, ?_, ?_, hinc, ?_⟩
  · simp [validate_uname]
  · simp [hl]
  · intro x hx
    simp only [List.mem_append, List.mem_map, List.map_append]
    right
    left
    rw [hl] at hx
    exact ⟨x, hx, rfl⟩

/-- Witness of C6: the request of the specification's example, arriving while
bob and carol are connected. -/
theorem new_connection_admits_witness :
    ((∀ k, env_all_ok.send_ok k = true) ∧ WF ex_state2
      ∧ ex_state2.client_list.tail.length < MAXCLIENTS
      ∧ field_BASE ex_request ex_indet = some "16".toList
      ∧ (2 ≤ base_of "16".toList ∧ base_of "16".toList ≤ 62)
      ∧ field_EXP ex_request ex_indet = some "11".toList
      ∧ mpz_is_zero "11".toList (base_of "16".toList) = false
      ∧ field_DIV ex_request ex_indet = some "1F4".toList
      ∧ mpz_is_zero "1F4".toList (base_of "16".toList) = false
      ∧ field_UNAME ex_request ex_indet = some "alice".toList
      ∧ "alice".toList ∉ ex_state2.client_list.map client_entry_t.uname)
    ∧ ∃ s', new_connection env_all_ok ex_accept_resp 7 "10.0.0.9".toList ex_pubkey
          (some ex_request) ex_indet ex_state2 = .ok 0 s'
      ∧ s'.client_list = ex_state2.client_list
          ++ [⟨ex_state2.next_addr, 7, "10.0.0.9".toList, "alice".toList,
                ⟨(base_of "16".toList).toNat, "1F4".toList, "11".toList⟩,
                ex_indet.missed_beats⟩]
      ∧ validate_uname "alice".toList s'.client_list = -1
      ∧ s'.client_list.tail.length = ex_state2.client_list.tail.length + 1
      ∧ s'.num_clients = ex_state2.num_clients + 1
      ∧ ∀ x ∈ ex_state2.client_list.tail,
          delivered (outgoing_fmt (strftime_HMS (env_all_ok.clock (ex_state2.sent.length + 1)))
            SERVER (joinmsg_fmt "alice".toList)) x ∈ s'.sent :=
  ⟨⟨fun _ => rfl, by decide, by decide, by decide, by decide, by decide, by decide, by decide,
      by decide, by decide, by decide⟩,
    new_connection_admits env_all_ok ex_accept_resp 7 "10.0.0.9".toList ex_pubkey ex_request
      ex_indet ex_state2 "16".toList "11".toList "1F4".toList "alice".toList (fun _ => rfl)
      (by decide) (by decide) (by decide) (by decide) (by decide) (by decide) (by decide)
      (by decide) (by decide) (by decide)⟩

/-! ## The heartbeat pass when every send succeeds -/

theorem unlink_split (a : List client_entry_t) (e : client_entry_t)
    (b : List client_entry_t) (h : e.socket ∉ a.map client_entry_t.socket) :
    unlink e.socket (a ++ e :: b) = some (e, a ++ b) := by
  induction a with
  | nil => simp [unlink]
  | cons p ps ih =>
    simp only [List.map_cons, List.mem_cons, not_or] at h
    show unlink e.socket (p :: (ps ++ e :: b)) = some (e, p :: (ps ++ b))
    rw [unlink, if_neg (fun hp => h.1 hp.symm), ih h.2]

theorem bump_split (a : List client_entry_t) (e : client_entry_t)
    (b : List client_entry_t) (h : e.addr ∉ a.map client_entry_t.addr) :
    bump e.addr (a ++ e :: b) = a ++ { e with missed_beats := e.missed_beats + 1 } :: b := by
  induction a with
  | nil => simp [bump]
  | cons p ps ih =>
    simp only [List.map_cons, List.mem_cons, not_or] at h
    show bump e.addr (p :: (ps ++ e :: b))
      = p :: (ps ++ { e with missed_beats := e.missed_beats + 1 } :: b)
    rw [bump, if_neg (fun hp => h.1 hp.symm), ih h.2]

theorem departure_line_ne_heartbeat (t : Nat) (n : List Char) :
    departure_line t n ≠ HEARTBEAT := by
  simp [departure_line, outgoing_fmt, HEARTBEAT]

theorem departure_line_inj (t1 t2 : Nat) (n1 n2 : List Char)
    (h : departure_line t1 n1 = departure_line t2 n2) : n1 = n2 := by
  simp only [departure_line, outgoing_fmt, strftime_HMS, leavemsg_fmt, SERVER,
    List.cons_append, List.nil_append, List.cons.injEq, String.toList] at h
  exact List.append_cancel_right h.2.2.2.2.2.2.2.2.2.2.2.2.2.2.2.2.2.2.2

theorem delivered_forget (text : List Char) (x y : client_entry_t) (h : forget x = forget y) :
    delivered text x = delivered text y := by
  have h1 : (forget x).socket = (forget y).socket := congrArg client_entry_t.socket h
  have h2 : (forget x).key = (forget y).key := congrArg client_entry_t.key h
  simp only [forget] at h1 h2
  simp [delivered, h1, h2]

theorem split_last (pre : List client_entry_t) (it : client_entry_t) :
    ∃ hd mid, pre ++ [it] = hd :: mid := by
  cases pre with
  | nil => exact ⟨it, [], rfl⟩
  | cons p ps => exact ⟨p, ps ++ [it], rfl⟩

theorem nodup_map_split {α : Type} (f : client_entry_t → α) (a : List client_entry_t)
    (e : client_entry_t) (b : List client_entry_t) (h : ((a ++ e :: b).map f).Nodup) :
    f e ∉ a.map f ∧ f e ∉ b.map f ∧ ((a ++ b).map f).Nodup := by
  simp only [List.map_append, List.map_cons] at h ⊢
  rw [List.nodup_middle, List.nodup_cons, List.mem_append, not_or] at h
  exact ⟨h.1.1, h.1.2, h.2⟩

theorem tail_forget_mem {l pre flt mid : List client_entry_t} {it hd y : client_entry_t}
    (hA : l.map forget = (pre ++ it :: flt).map forget) (hdm : pre ++ [it] = hd :: mid)
    (hy : y ∈ l.tail) : ∃ y0 ∈ mid ++ flt, forget y0 = forget y := by
  have hy' : forget y ∈ (l.map forget).tail := by
    rw [← List.map_tail]; exact List.mem_map_of_mem _ hy
  have hsplit : pre ++ it :: flt = hd :: (mid ++ flt) := by
    rw [← List.cons_append, ← hdm]; simp
  rw [hA, hsplit, List.map_cons, List.tail_cons] at hy'
  exact List.mem_map.1 hy'

theorem heartbeat_loop_all_ok (env : Env) (hok : ∀ n, env.send_ok n = true) :
    ∀ (rest pre : List client_entry_t) (it : client_entry_t) (fuel : Nat) (s : State),
      s.client_list = pre ++ it :: rest →
      (s.client_list.map client_entry_t.addr).Nodup →
      (s.client_list.map client_entry_t.socket).Nodup →
      rest.length + s.client_list.length + 2 ≤ fuel →
      ∃ s' new, heartbeat_loop fuel env it.addr s = .ok () s' ∧ s'.sent = s.sent ++ new
        ∧ s'.client_list.map forget
            = (pre ++ it :: rest.filter (fun x => decide (x.missed_beats ≠ 3))).map forget
        ∧ (∀ m ∈ new,
            (m.text = HEARTBEAT ∧ ∃ x ∈ rest, x.missed_beats ≠ 3 ∧ m.socket = x.socket)
            ∨ (∃ x ∈ rest, x.missed_beats = 3 ∧ m.socket ≠ x.socket
                ∧ ∃ t, m.text = departure_line t x.uname))
        ∧ (∀ x ∈ rest, x.missed_beats = 3 →
            ∃ t, ∀ y ∈ s'.client_list.tail, delivered (departure_line t x.uname) y ∈ new)
        ∧ s'.client_list
            = pre ++ it :: (rest.filter (fun x => decide (x.missed_beats ≠ 3))).map
                (fun e => { e with missed_beats := e.missed_beats + 1 })
        ∧ s'.num_clients
            = dec_u32^[(rest.filter (fun x => decide (x.missed_beats = 3))).length]
                s.num_clients := by
  intro rest
  induction rest with
  | nil =>
    intro pre it fuel s hl hnd _ hf
    cases fuel with
    | zero => omega
    | succ f =>
      have hderef : deref it.addr s.client_list = some (it, []) := by
        rw [hl]; exact deref_split pre it [] (not_mem_pre_of_nodup (hl ▸ hnd))
      refine ⟨s, [], ?_, by simp, by simp [hl], by simp, by simp, by rw [hl]; rfl, rfl⟩
      rw [heartbeat_loop]
      simp only [hderef]
  | cons nx rest1 ih =>
    intro pre it fuel s hl hnd hns hf
    cases fuel with
    | zero => omega
    | succ f =>
      have hderef : deref it.addr s.client_list = some (it, nx :: rest1) := by
        rw [hl]; exact deref_split pre it _ (not_mem_pre_of_nodup (hl ▸ hnd))
      obtain ⟨hd, mid, hdm⟩ := split_last pre it
      have hl' : s.client_list = hd :: (mid ++ nx :: rest1) := by
        rw [hl, ← List.cons_append, ← hdm]; simp
      have hl'' : s.client_list = (hd :: mid) ++ nx :: rest1 := by rw [hl']; rfl
      have hlen : s.client_list.length = mid.length + rest1.length + 2 := by
        rw [hl']; simp; omega
      simp only [List.length_cons] at hf
      obtain ⟨hs1, hs2, hs3⟩ := nodup_map_split client_entry_t.socket (hd :: mid) nx rest1
        (hl'' ▸ hns)
      obtain ⟨ha1, ha2, ha3⟩ := nodup_map_split client_entry_t.addr (hd :: mid) nx rest1
        (hl'' ▸ hnd)
      rw [heartbeat_loop]
      simp only [hderef]
      by_cases hmb : nx.missed_beats = 3
      · simp only [hmb, if_true]
        have hsock : hd.socket ≠ nx.socket := by
          intro h; exact hs1 (by simp [h])
        have hnot : nx.socket ∉ mid.map client_entry_t.socket := by
          intro h; exact hs1 (List.mem_cons_of_mem _ h)
        have hrm := remove_client_aux_all_ok env hok nx.socket hd (mid ++ nx :: rest1) nx
          (mid ++ rest1) f s hl' hnd hsock (unlink_split mid nx rest1 hnot)
          (by simp only [List.length_append, List.length_cons]; omega)
        rw [hrm]
        have hl2 : hd :: (mid ++ rest1) = pre ++ it :: rest1 := by
          rw [← List.cons_append, ← hdm]; simp
        obtain ⟨s', new', hrun, hsent, hA, hB, hC, hD, hE⟩ := ih pre it f
          { s with
            client_list := hd :: (mid ++ rest1)
            num_clients := dec_u32 s.num_clients
            sent := s.sent ++ (mid ++ rest1).map
              (delivered (outgoing_fmt (strftime_HMS (env.clock s.sent.length)) SERVER
                (leavemsg_fmt nx.uname))) }
          hl2 ha3 hs3
          (by simp only [List.length_cons, List.length_append]; omega)
        refine ⟨s', (mid ++ rest1).map (delivered (departure_line (env.clock s.sent.length)
          nx.uname)) ++ new', ?_, ?_, ?_, ?_, ?_, ?_, ?_⟩
        · simpa using hrun
        · rw [hsent]; simp [departure_line]
        · rw [hA]; simp [hmb]
        · intro m hm
          rcases List.mem_append.1 hm with hm | hm
          · right
            obtain ⟨y, hy, rfl⟩ := List.mem_map.1 hm
            refine ⟨nx, List.mem_cons_self _ _, hmb, ?_, _, rfl⟩
            show y.socket ≠ nx.socket
            intro h
            rcases List.mem_append.1 hy with hy | hy
            · exact hnot (h ▸ List.mem_map_of_mem _ hy)
            · exact hs2 (h ▸ List.mem_map_of_mem _ hy)
          · rcases hB m hm with ⟨h1, x, hx, h2, h3⟩ | ⟨x, hx, h1, h2, h3⟩
            · exact Or.inl ⟨h1, x, List.mem_cons_of_mem _ hx, h2, h3⟩
            · exact Or.inr ⟨x, List.mem_cons_of_mem _ hx, h1, h2, h3⟩
        · intro x hx hx3
          rcases List.mem_cons.1 hx with rfl | hx
          · refine ⟨env.clock s.sent.length, ?_⟩
            intro y hy
            apply List.mem_append_left
            obtain ⟨y0, hy0, hyy⟩ := tail_forget_mem hA hdm hy
            rw [← delivered_forget _ y0 y hyy]
            refine List.mem_map_of_mem _ ?_
            rcases List.mem_append.1 hy0 with h | h
            · exact List.mem_append_left _ h
            · exact List.mem_append_right _ (List.mem_filter.1 h).1
          · obtain ⟨t, ht⟩ := hC x hx hx3
            exact ⟨t, fun y hy => List.mem_append_right _ (ht y hy)⟩
        · rw [hD, List.filter_cons_of_neg (by simp [hmb])]
        · rw [hE, List.filter_cons_of_pos (by simp [hmb]), List.length_cons,
            Function.iterate_succ_apply]
      · simp only [hmb, if_false, send, hok]
        have hbump : bump nx.addr s.client_list
            = (pre ++ [it]) ++ { nx with missed_beats := nx.missed_beats + 1 } :: rest1 := by
          rw [hl'', ← hdm]
          exact bump_split _ nx rest1 (hdm ▸ ha1)
        have hmapa : ((pre ++ [it]) ++ { nx with missed_beats := nx.missed_beats + 1 } :: rest1).map
            client_entry_t.addr = s.client_list.map client_entry_t.addr := by
          rw [hl]; simp
        have hmaps : ((pre ++ [it]) ++ { nx with missed_beats := nx.missed_beats + 1 } :: rest1).map
            client_entry_t.socket = s.client_list.map client_entry_t.socket := by
          rw [hl]; simp
        obtain ⟨s', new', hrun, hsent, hA, hB, hC, hD, hE⟩ := ih (pre ++ [it])
          { nx with missed_beats := nx.missed_beats + 1 } f
          { s with
            client_list := bump nx.addr s.client_list
            sent := s.sent ++ [⟨nx.socket, HEARTBEAT, some nx.key, true⟩] }
          hbump (by simp only [hbump, hmapa]; exact hnd) (by simp only [hbump, hmaps]; exact hns)
          (by
            have : (bump nx.addr s.client_list).length = s.client_list.length := by
              rw [hbump, hl]; simp
            simp only [this]; omega)
        refine ⟨s', ⟨nx.socket, HEARTBEAT, some nx.key, true⟩ :: new', hrun, ?_, ?_, ?_, ?_,
          ?_, ?_⟩
        · rw [hsent]; simp
        · rw [hA]; simp [hmb, forget]
        · intro m hm
          rcases List.mem_cons.1 hm with rfl | hm
          · exact Or.inl ⟨rfl, nx, List.mem_cons_self _ _, hmb, rfl⟩
          · rcases hB m hm with ⟨h1, x, hx, h2, h3⟩ | ⟨x, hx, h1, h2, h3⟩
            · exact Or.inl ⟨h1, x, List.mem_cons_of_mem _ hx, h2, h3⟩
            · exact Or.inr ⟨x, List.mem_cons_of_mem _ hx, h1, h2, h3⟩
        · intro x hx hx3
          rcases List.mem_cons.1 hx with rfl | hx
          · exact absurd hx3 hmb
          · obtain ⟨t, ht⟩ := hC x hx hx3
            exact ⟨t, fun y hy => List.mem_cons_of_mem _ (ht y hy)⟩
        · rw [hD, List.filter_cons_of_pos (by simpa using hmb), List.map_cons,
            List.append_assoc]
          rfl
        · rw [hE, List.filter_cons_of_neg (by simpa using hmb)]

/-- C8: when every send succeeds, a heartbeat pass over a registry whose records
have distinct addresses, sockets and names removes every session X whose
`missed_beats` is 3 at the start. The registry after the pass is the server
record followed by exactly the sessions whose counter was not 3, in their
order, each with its counter one higher, and `num_clients` has been decremented
once per evicted session; so no record has X's address or socket. Nothing sent
to X's socket during the pass is the heartbeat token or a departure line naming
X, and every session of the starting registry whose counter was not 3, which
are the sessions left in the registry, has been sent
"(<time>) SERVER: <name of X> left the chat" under its own key. -/
theorem heartbeat_evicts_timed_out (env : Env) (s : State) (X : client_entry_t)
    (hok : ∀ k, env.send_ok k = true)
    (haddr : (s.client_list.map client_entry_t.addr).Nodup)
    (hsock : (s.client_list.map client_entry_t.socket).Nodup)
    (hname : (s.client_list.map client_entry_t.uname).Nodup)
    (hX : X ∈ s.client_list.tail) (hmb : X.missed_beats = 3) :
    ∃ s' new, heartbeat env s = .ok () s' ∧ s'.sent = s.sent ++ new
      ∧ s'.client_list
          = s.client_list.take 1
            ++ (s.client_list.tail.filter (fun x => decide (x.missed_beats ≠ 3))).map
                (fun e => { e with missed_beats := e.missed_beats + 1 })
      ∧ s'.num_clients
          = dec_u32^[(s.client_list.tail.filter (fun x => decide (x.missed_beats = 3))).length]
              s.num_clients
      ∧ (∀ e ∈ s'.client_list, e.addr ≠ X.addr ∧ e.socket ≠ X.socket)
      ∧ (∀ m ∈ new, m.socket = X.socket →
          m.text ≠ HEARTBEAT ∧ ∀ t, m.text ≠ departure_line t X.uname)
      ∧ ∃ t, (∀ y ∈ s.client_list.tail, y.missed_beats ≠ 3 →
                delivered (departure_line t X.uname) y ∈ new)
          ∧ ∀ y ∈ s'.client_list.tail, delivered (departure_line t X.uname) y ∈ new := by
  obtain ⟨hd, tl, hl⟩ : ∃ hd tl, s.client_list = hd :: tl := by
    cases hs : s.client_list with
    | nil => rw [hs] at hX; simp at hX
    | cons x xs => exact ⟨x, xs, rfl⟩
  have hXtl : X ∈ tl := by rw [hl] at hX; exact hX
  have hXl : X ∈ s.client_list := by rw [hl]; exact List.mem_cons_of_mem _ hXtl
  have hfuel : tl.length + s.client_list.length + 2 ≤ fuel_bound s.client_list.length := by
    have := fuel_bound_ge s.client_list.length
    rw [hl] at this ⊢
    simp only [List.length_cons] at this ⊢
    omega
  obtain ⟨s', new, hrun, hsent, hA, hB, hC, hD, hE⟩ :=
    heartbeat_loop_all_ok env hok tl [] hd (fuel_bound s.client_list.length) s hl haddr hsock
      hfuel
  have hnodup : s.client_list.Nodup := List.Nodup.of_map _ haddr
  have hXnot : X ∉ hd :: tl.filter (fun x => decide (x.missed_beats ≠ 3)) := by
    intro h
    rcases List.mem_cons.1 h with rfl | h
    · rw [hl] at hnodup
      exact (List.nodup_cons.1 hnodup).1 hXtl
    · have := (List.mem_filter.1 h).2
      simp [hmb] at this
  have hsub : ∀ e0 ∈ hd :: tl.filter (fun x => decide (x.missed_beats ≠ 3)),
      e0 ∈ s.client_list := by
    intro e0 he0
    rw [hl]
    rcases List.mem_cons.1 he0 with rfl | h
    · exact List.mem_cons_self _ _
    · exact List.mem_cons_of_mem _ (List.mem_filter.1 h).1
  obtain ⟨t, ht⟩ := hC X hXtl hmb
  refine ⟨s', new, ?_, hsent, ?_, ?_, ?_, ?_, t, ?_, ht⟩
  · rw [heartbeat, hl]
    rw [hl] at hrun
    exact hrun
  · rw [hD, hl]; rfl
  · rw [hE, hl]; rfl
  · intro e he
    have he' : forget e ∈ s'.client_list.map forget := List.mem_map_of_mem _ he
    rw [hA] at he'
    obtain ⟨e0, he0, hee⟩ := List.mem_map.1 he'
    have h1 : (forget e0).addr = (forget e).addr := congrArg client_entry_t.addr hee
    have h2 : (forget e0).socket = (forget e).socket := congrArg client_entry_t.socket hee
    simp only [forget] at h1 h2
    have hne : e0 ≠ X := fun h => hXnot (h ▸ he0)
    constructor
    · intro h
      exact hne (List.inj_on_of_nodup_map haddr (hsub e0 he0) hXl (h1.trans h))
    · intro h
      exact hne (List.inj_on_of_nodup_map hsock (hsub e0 he0) hXl (h2.trans h))
  · intro m hm hmX
    rcases hB m hm with ⟨-, x, hx, h2, h3⟩ | ⟨x, hx, -, h2, t, h3⟩
    · exfalso
      have hxl : x ∈ s.client_list := by rw [hl]; exact List.mem_cons_of_mem _ hx
      have : x = X := List.inj_on_of_nodup_map hsock hxl hXl (h3.symm.trans hmX)
      exact h2 (this ▸ hmb)
    · have hxl : x ∈ s.client_list := by rw [hl]; exact List.mem_cons_of_mem _ hx
      have hxX : x.uname ≠ X.uname := by
        intro h
        have : x = X := List.inj_on_of_nodup_map hname hxl hXl h
        exact h2 (this ▸ hmX)
      rw [h3]
      exact ⟨departure_line_ne_heartbeat _ _,
        fun t' h => hxX (departure_line_inj _ _ _ _ h)⟩
  · intro y hy hy3
    have hmem : { y with missed_beats := y.missed_beats + 1 } ∈ s'.client_list.tail := by
      rw [hD]
      show _ ∈ (tl.filter (fun x => decide (x.missed_beats ≠ 3))).map
        (fun e => { e with missed_beats := e.missed_beats + 1 })
      refine List.mem_map_of_mem _ (List.mem_filter.2 ⟨?_, by simpa using hy3⟩)
      rw [hl] at hy; exact hy
    exact ht { y with missed_beats := y.missed_beats + 1 } hmem

/-- Witness of C8: bob has missed three beats; alice and carol are told. -/
theorem heartbeat_evicts_timed_out_witness :
    ((∀ k, env_all_ok.send_ok k = true)
      ∧ (ex_state_timeout.client_list.map client_entry_t.addr).Nodup
      ∧ (ex_state_timeout.client_list.map client_entry_t.socket).Nodup
      ∧ (ex_state_timeout.client_list.map client_entry_t.uname).Nodup
      ∧ { ex_bob with missed_beats := 3 } ∈ ex_state_timeout.client_list.tail
      ∧ ({ ex_bob with missed_beats := 3 } : client_entry_t).missed_beats = 3)
    ∧ ∃ s' new, heartbeat env_all_ok ex_state_timeout = .ok () s'
      ∧ s'.sent = ex_state_timeout.sent ++ new
      ∧ s'.client_list
          = ex_state_timeout.client_list.take 1
            ++ (ex_state_timeout.client_list.tail.filter
                  (fun x => decide (x.missed_beats ≠ 3))).map
                (fun e => { e with missed_beats := e.missed_beats + 1 })
      ∧ s'.num_clients
          = dec_u32^[(ex_state_timeout.client_list.tail.filter
                (fun x => decide (x.missed_beats = 3))).length]
              ex_state_timeout.num_clients
      ∧ (∀ e ∈ s'.client_list, e.addr ≠ ex_bob.addr ∧ e.socket ≠ ex_bob.socket)
      ∧ (∀ m ∈ new, m.socket = ex_bob.socket →
          m.text ≠ HEARTBEAT ∧ ∀ t, m.text ≠ departure_line t ex_bob.uname)
      ∧ ∃ t, (∀ y ∈ ex_state_timeout.client_list.tail, y.missed_beats ≠ 3 →
                delivered (departure_line t ex_bob.uname) y ∈ new)
          ∧ ∀ y ∈ s'.client_list.tail, delivered (departure_line t ex_bob.uname) y ∈ new :=
  ⟨⟨fun _ => rfl, by decide, by decide, by decide, by decide, rfl⟩,
    heartbeat_evicts_timed_out env_all_ok ex_state_timeout { ex_bob with missed_beats := 3 }
      (fun _ => rfl) (by decide) (by decide) (by decide) (by decide) rfl⟩

/-- The pass of the witness, evaluated: alice is pinged, bob is evicted without
a ping and announced to alice and carol, carol is pinged. -/
theorem heartbeat_timeout_example :
    heartbeat env_all_ok ex_state_timeout
      = .ok ()
          { client_list :=
              [ex_server, { ex_alice with missed_beats := 1 }, { ex_carol with missed_beats := 1 }]
            num_clients := 2
            sent :=
              [⟨4, HEARTBEAT, some ex_key, true⟩,
               ⟨4, "(12:00:00) SERVER: bob left the chat".toList, some ex_key, true⟩,
               ⟨6, "(12:00:00) SERVER: bob left the chat".toList, some ex_key, true⟩,
               ⟨6, HEARTBEAT, some ex_key, true⟩]
            next_addr := 4 } := by
  decide

/-! ## The fuel of `broadcast`, `remove_client` and `heartbeat` suffices -/

theorem ahead_of_deref (a : Nat) :
    ∀ (l : List client_entry_t) (e : client_entry_t) (rest : List client_entry_t),
      deref a l = some (e, rest) → ahead a l = rest.length + 1 := by
  intro l
  induction l with
  | nil => intro e rest h; simp [deref] at h
  | cons x xs ih =>
    intro e rest h
    simp only [deref] at h
    simp only [ahead]
    split at h
    · rename_i hx
      simp only [Option.some.injEq, Prod.mk.injEq] at h
      rw [if_pos hx, h.2]
    · rename_i hx
      rw [if_neg hx]
      exact ih e rest h

theorem ahead_le_length (a : Nat) (l : List client_entry_t) : ahead a l ≤ l.length := by
  induction l with
  | nil => simp [ahead]
  | cons x xs ih =>
    simp only [ahead, List.length_cons]
    split <;> omega

theorem ahead_forget (a : Nat) (l : List client_entry_t) :
    ahead a (l.map forget) = ahead a l := by
  induction l with
  | nil => rfl
  | cons x xs ih =>
    simp only [List.map_cons, ahead, List.length_map, ih]
    rfl

theorem ahead_sublist (a : Nat) {l2 l : List client_entry_t} (h : l2.Sublist l) :
    ahead a l2 ≤ ahead a l := by
  induction h with
  | slnil => exact Nat.le_refl _
  | @cons l2 l x hsub ih =>
    simp only [ahead]
    split
    · have h1 := ahead_le_length a l2
      have h2 := hsub.length_le
      omega
    · exact ih
  | @cons₂ l2 l x hsub ih =>
    simp only [ahead]
    split
    · have h2 := hsub.length_le
      omega
    · exact ih

theorem ahead_shrinks (a : Nat) {s s' : State} (h : Shrinks s s') :
    ahead a s'.client_list ≤ ahead a s.client_list := by
  rw [← ahead_forget a s'.client_list, ← ahead_forget a s.client_list]
  exact ahead_sublist a h.sub

theorem deref_mem (a : Nat) :
    ∀ (l : List client_entry_t) (e : client_entry_t) (rest : List client_entry_t),
      deref a l = some (e, rest) → ∀ x ∈ rest, x ∈ l := by
  intro l
  induction l with
  | nil => intro e rest h; simp [deref] at h
  | cons y ys ih =>
    intro e rest h x hx
    simp only [deref] at h
    split at h
    · simp only [Option.some.injEq, Prod.mk.injEq] at h
      exact List.mem_cons_of_mem _ (h.2 ▸ hx)
    · exact List.mem_cons_of_mem _ (ih e rest h x hx)

theorem ahead_next (a : Nat) :
    ∀ (l : List client_entry_t) (e x : client_entry_t) (rest : List client_entry_t),
      (l.map client_entry_t.addr).Nodup → deref a l = some (e, x :: rest) →
      ahead x.addr l = rest.length + 1 := by
  intro l
  induction l with
  | nil => intro e x rest _ h; simp [deref] at h
  | cons y ys ih =>
    intro e x rest hnd h
    have hx : x ∈ ys := by
      have := deref_mem a (y :: ys) e (x :: rest) h x (List.mem_cons_self _ _)
      simp only [deref] at h
      split at h
      · simp only [Option.some.injEq, Prod.mk.injEq] at h
        rw [h.2]; exact List.mem_cons_self _ _
      · exact deref_mem a ys e (x :: rest) h x (List.mem_cons_self _ _)
    simp only [List.map_cons, List.nodup_cons] at hnd
    have hne : ¬ y.addr = x.addr := by
      intro heq
      exact hnd.1 (heq ▸ List.mem_map_of_mem _ hx)
    simp only [ahead, if_neg hne]
    simp only [deref] at h
    split at h
    · simp only [Option.some.injEq, Prod.mk.injEq] at h
      rw [h.2]
      simp [ahead]
    · exact ih e x rest hnd.2 h

theorem ahead_ptr_next (a : Nat) (l : List client_entry_t) (e : client_entry_t)
    (rest : List client_entry_t) (hnd : (l.map client_entry_t.addr).Nodup)
    (h : deref a l = some (e, rest)) : ahead_ptr (ptr rest) l = rest.length := by
  cases rest with
  | nil => rfl
  | cons x rest' =>
    simp only [ptr, List.head?_cons, Option.map_some', ahead_ptr, List.length_cons]
    exact ahead_next a l e x rest' hnd h

theorem bump_addr (a : Nat) (l : List client_entry_t) :
    (bump a l).map client_entry_t.addr = l.map client_entry_t.addr := by
  have := congrArg (List.map client_entry_t.addr) (bump_forget a l)
  simpa [List.map_map, Function.comp_def, forget] using this

theorem bump_length (a : Nat) (l : List client_entry_t) : (bump a l).length = l.length := by
  have := congrArg List.length (bump_forget a l)
  simpa using this

theorem ahead_bump (a b : Nat) (l : List client_entry_t) :
    ahead a (bump b l) = ahead a l := by
  rw [← ahead_forget a (bump b l), bump_forget, ahead_forget]

theorem Shrinks.nodup_addr {s s' : State} (h : Shrinks s s')
    (hnd : (s.client_list.map client_entry_t.addr).Nodup) :
    (s'.client_list.map client_entry_t.addr).Nodup := by
  have ha : s'.client_list.map client_entry_t.addr
      = (s'.client_list.map forget).map client_entry_t.addr := by
    simp [List.map_map, Function.comp_def, forget]
  have ha0 : s.client_list.map client_entry_t.addr
      = (s.client_list.map forget).map client_entry_t.addr := by
    simp [List.map_map, Function.comp_def, forget]
  rw [ha]
  exact List.Nodup.sublist (h.sub.map _) (ha0 ▸ hnd)

theorem remove_client_aux_length (fuel : Nat) (env : Env) (socket : Int) (s : State) (r : Int)
    (s' : State) (h : remove_client_aux fuel env socket s = .ok r s') (hr : r ≠ -1) :
    s'.client_list.length < s.client_list.length := by
  cases fuel with
  | zero => simp [remove_client_aux] at h
  | succ fuel =>
    rw [remove_client_aux] at h
    split at h
    · simp at h
    · rename_i hd rest hl
      split at h
      · simp at h
      · split at h
        · simp only [Outcome.ok.injEq] at h
          exact absurd h.1.symm hr
        · rename_i deletethis rest' hu
          obtain ⟨-, hlen⟩ := unlink_sublist _ _ _ _ hu
          simp only at h
          split at h
          · simp at h
          · rename_i r2 s2 hb
            simp only [Outcome.ok.injEq] at h
            have h12 := ((shrinks_aux fuel).2.1 _ _ _ _ _ _ hb).length_le
            rw [← h.2, hl]
            simp only [List.length_cons] at h12 ⊢
            omega

theorem finished_of_eq {α β : Type} {o : Outcome α} {f : Fault} {s : State}
    (h : o.finished) (heq : o = .fault f s) : (Outcome.fault f s : Outcome β).finished := by
  rw [heq] at h
  cases f <;> simp_all [Outcome.finished]

/-- With fuel above the bound, `broadcast` and `remove_client` do not run out
of fuel on a list whose records have distinct addresses. -/
theorem finished_aux (fuel : Nat) :
    (∀ env outgoing it result s n r,
        (s.client_list.map client_entry_t.addr).Nodup → s.client_list.length ≤ n →
        ahead_ptr it s.client_list ≤ r → r + fuel_remove n + 1 ≤ fuel →
        (broadcast_loop fuel env outgoing it result s).finished)
    ∧ (∀ env uname msg s n,
        (s.client_list.map client_entry_t.addr).Nodup → s.client_list.length ≤ n →
        n + fuel_remove n + 2 ≤ fuel → (broadcast_aux fuel env uname msg s).finished)
    ∧ (∀ env socket s n,
        (s.client_list.map client_entry_t.addr).Nodup → s.client_list.length ≤ n →
        fuel_remove n ≤ fuel → (remove_client_aux fuel env socket s).finished) := by
  induction fuel with
  | zero =>
    refine ⟨?_, ?_, ?_⟩
    · intro env outgoing it result s n r _ _ _ hf; omega
    · intro env uname msg s n _ _ hf; omega
    · intro env socket s n _ _ hf; unfold fuel_remove at hf; omega
  | succ fuel ih =>
    obtain ⟨ihl, ihb, ihr⟩ := ih
    refine ⟨?_, ?_, ?_⟩
    · intro env outgoing it result s n r hnd hn hr hf
      cases it with
      | none => simp [broadcast_loop, Outcome.finished]
      | some a =>
        rw [broadcast_loop]
        split
        · simp [Outcome.finished]
        · rename_i e rest hd
          have hah : ahead a s.client_list = rest.length + 1 := ahead_of_deref a _ _ _ hd
          simp only [ahead_ptr, hah] at hr
          split
          · rename_i s1 hs
            have hs1 := send_eq _ _ _ _ _ _ _ hs
            have hl1 : s1.client_list = s.client_list := by rw [hs1]; rfl
            refine ihl _ _ _ _ _ n (r - 1) (hl1 ▸ hnd) (hl1 ▸ hn) ?_ (by omega)
            rw [hl1, ahead_ptr_next a _ e rest hnd hd]
            omega
          · rename_i s1 hs
            have hs1 := send_eq _ _ _ _ _ _ _ hs
            have hl1 : s1.client_list = s.client_list := by rw [hs1]; rfl
            split
            · simp [Outcome.finished]
            · rename_i nx tl
              have hrm := ihr env nx.socket s1 n (hl1 ▸ hnd) (hl1 ▸ hn) (by omega)
              split
              · rename_i f s2 heq
                exact finished_of_eq hrm heq
              · rename_i r2 s2 heq
                have h12 := (shrinks_aux fuel).2.2 _ _ _ _ _ heq
                have hnd2 := h12.nodup_addr (hl1 ▸ hnd)
                split
                · simp [Outcome.finished]
                · split
                  · simp [Outcome.finished]
                  · rename_i e2 rest2 hd2
                    have hah2 : ahead a s2.client_list = rest2.length + 1 :=
                      ahead_of_deref a _ _ _ hd2
                    have hle := ahead_shrinks a h12
                    rw [hah2, hl1, hah] at hle
                    have hlen2 := h12.length_le
                    rw [hl1] at hlen2
                    refine ihl _ _ _ _ _ n (r - 1) hnd2 (by omega) ?_ (by omega)
                    rw [ahead_ptr_next a _ e2 rest2 hnd2 hd2]
                    omega
    · intro env uname msg s n hnd hn hf
      rw [broadcast_aux]
      split
      · simp [Outcome.finished]
      · rename_i hd rest hl
        refine ihl _ _ _ _ _ n n hnd hn ?_ (by omega)
        cases hp : ptr rest with
        | none => simp [ahead_ptr]
        | some a =>
          simp only [ahead_ptr]
          exact (ahead_le_length a _).trans hn
    · intro env socket s n hnd hn hf
      rw [remove_client_aux]
      split
      · simp [Outcome.finished]
      · rename_i hd rest hl
        split
        · simp [Outcome.finished]
        · split
          · simp [Outcome.finished]
          · rename_i deletethis rest' hu
            obtain ⟨hsub, hlen⟩ := unlink_sublist _ _ _ _ hu
            simp only
            have hnd1 : ((hd :: rest').map client_entry_t.addr).Nodup := by
              rw [hl] at hnd
              exact List.Nodup.sublist ((hsub.cons₂ hd).map _) hnd
            obtain ⟨m, rfl⟩ : ∃ m, n = m + 1 := by
              rw [hl] at hn
              simp only [List.length_cons] at hn
              exact ⟨n - 1, by omega⟩
            have hb := ihb env SERVER (leavemsg_fmt deletethis.uname)
              { s with client_list := hd :: rest' } m hnd1
              (by rw [hl] at hn; simp only [List.length_cons] at hn ⊢; omega)
              (by unfold fuel_remove at hf ⊢; nlinarith)
            split
            · rename_i f s2 heq
              exact finished_of_eq hb heq
            · simp [Outcome.finished]

/-- With its fuel, the loop of `heartbeat` does not run out of fuel on a list
whose records have distinct addresses. -/
theorem heartbeat_loop_finished (fuel : Nat) :
    ∀ env it s n r,
      (s.client_list.map client_entry_t.addr).Nodup → s.client_list.length ≤ n →
      ahead it s.client_list + s.client_list.length ≤ r → r + fuel_remove n + 1 ≤ fuel →
      (heartbeat_loop fuel env it s).finished := by
  induction fuel with
  | zero => intro env it s n r _ _ _ hf; omega
  | succ fuel ih =>
    intro env it s n r hnd hn hr hf
    rw [heartbeat_loop]
    split
    · simp [Outcome.finished]
    · simp [Outcome.finished]
    · rename_i e nx tl hd
      have hah : ahead it s.client_list = tl.length + 1 + 1 := by
        rw [ahead_of_deref it _ _ _ hd]; rfl
      split
      · have hrm := (finished_aux fuel).2.2 env nx.socket s n hnd hn (by omega)
        split
        · rename_i f s2 heq
          exact finished_of_eq hrm heq
        · rename_i r2 s2 heq
          have h12 := (shrinks_aux fuel).2.2 _ _ _ _ _ heq
          split
          · simp [Outcome.finished]
          · rename_i hr2
            have hlt := remove_client_aux_length _ _ _ _ _ _ heq hr2
            have hle := ahead_shrinks it h12
            refine ih _ _ _ n (r - 1) (h12.nodup_addr hnd) (by omega) (by omega) (by omega)
      · split
        · rename_i s1 hs
          have hs1 := send_eq _ _ _ _ _ _ _ hs
          have hl1 : s1.client_list = s.client_list := by rw [hs1]; rfl
          refine ih _ _ _ n (r - 1) ?_ ?_ ?_ (by omega)
          · simp only [bump_addr, hl1]; exact hnd
          · simp only [bump_length, hl1]; exact hn
          · simp only [ahead_bump, bump_length, hl1]
            rw [ahead_next it _ e nx tl hnd hd]
            omega
        · rename_i s1 hs
          have hs1 := send_eq _ _ _ _ _ _ _ hs
          have hl1 : s1.client_list = s.client_list := by rw [hs1]; rfl
          have hrm := (finished_aux fuel).2.2 env nx.socket s1 n (hl1 ▸ hnd) (hl1 ▸ hn)
            (by omega)
          split
          · rename_i f s2 heq
            exact finished_of_eq hrm heq
          · rename_i r2 s2 heq
            have h12 := (shrinks_aux fuel).2.2 _ _ _ _ _ heq
            have hnd2 := h12.nodup_addr (hl1 ▸ hnd)
            split
            · simp [Outcome.finished]
            · rename_i hr2
              have hlt := remove_client_aux_length _ _ _ _ _ _ heq hr2
              rw [hl1] at hlt
              have hle := ahead_shrinks it h12
              rw [hl1] at hle
              split
              · simp [Outcome.finished]
              · simp [Outcome.finished]
              · rename_i e2 n2 tl2 hd2
                refine ih _ _ _ n (r - 1) ?_ ?_ ?_ (by omega)
                · simp only [bump_addr]; exact hnd2
                · simp only [bump_length]; omega
                · simp only [ahead_bump, bump_length]
                  rw [ahead_next it _ e2 n2 tl2 hnd2 hd2]
                  have := ahead_of_deref it _ _ _ hd2
                  simp only [List.length_cons] at this
                  omega

/-- `broadcast` never stops for lack of fuel. -/
theorem broadcast_finished (env : Env) (uname msg : List Char) (s : State)
    (hnd : (s.client_list.map client_entry_t.addr).Nodup) :
    (broadcast env uname msg s).finished := by
  refine (finished_aux _).2.1 env uname msg s s.client_list.length hnd (Nat.le_refl _) ?_
  unfold fuel_remove fuel_bound
  nlinarith

/-- `remove_client` never stops for lack of fuel. -/
theorem remove_client_finished (env : Env) (socket : Int) (s : State)
    (hnd : (s.client_list.map client_entry_t.addr).Nodup) :
    (remove_client env socket s).finished := by
  refine (finished_aux _).2.2 env socket s s.client_list.length hnd (Nat.le_refl _) ?_
  unfold fuel_remove fuel_bound
  nlinarith

/-- `heartbeat` never stops for lack of fuel. -/
theorem heartbeat_finished (env : Env) (s : State)
    (hnd : (s.client_list.map client_entry_t.addr).Nodup) :
    (heartbeat env s).finished := by
  unfold heartbeat
  split
  · simp [Outcome.finished]
  · rename_i hd tl hl
    refine heartbeat_loop_finished _ env hd.addr s s.client_list.length
      (2 * s.client_list.length) hnd (Nat.le_refl _) ?_ ?_
    · have := ahead_le_length hd.addr s.client_list
      omega
    · unfold fuel_remove fuel_bound
      nlinarith
/-- `handle_client_message` never stops for lack of fuel. -/
theorem handle_client_message_finished (env : Env) (socket : Int) (len : Int)
    (msg : List Char) (s : State) (hnd : (s.client_list.map client_entry_t.addr).Nodup) :
    (handle_client_message env socket len msg s).finished := by
  unfold handle_client_message
  split
  · simp [Outcome.finished]
  · split
    · simp [Outcome.finished]
    · split
      · have h := remove_client_finished env socket s hnd
        split
        · rename_i f s1 heq
          exact finished_of_eq h heq
        · split <;> simp [Outcome.finished]
      · split
        · simp [Outcome.finished]
        · rename_i client _ _ _ _
          have h := broadcast_finished env client.uname msg s hnd
          split
          · rename_i f s1 heq
            exact finished_of_eq h heq
          · split <;> simp [Outcome.finished]

/-- `new_connection` never stops for lack of fuel. -/
theorem new_connection_finished (env : Env) (ar : Nat → List Char → List Char → List Char)
    (socket : Int) (ip : List Char) (pk : rsa_key_t) (recv : Option (List Char))
    (u : Indeterminate) (s : State)
    (hnd : (s.client_list.map client_entry_t.addr).Nodup)
    (hfresh : ∀ e ∈ s.client_list, e.addr < s.next_addr) :
    (new_connection env ar socket ip pk recv u s).finished := by
  cases recv with
  | none => simp [new_connection, Outcome.finished]
  | some msg =>
    cases hf : first_failed msg u s with
    | some c =>
      rw [new_connection_reject env ar socket ip pk msg u s c hf]
      simp [reject, Outcome.finished]
    | none =>
      obtain ⟨n, -, -, -, -, heq⟩ := new_connection_admit env ar socket ip pk msg u s hf
      rw [heq]
      unfold admit_client
      split
      · simp [Outcome.finished]
      · rename_i s1 hs
        have hs1 := send_eq _ _ _ _ _ _ _ hs
        have hl1 : s1.client_list = s.client_list := by rw [hs1]; rfl
        split
        · simp [Outcome.finished]
        · simp only
          have hnd2 : ((s1.client_list ++ [(⟨s.next_addr, socket, ip, n, declared_key msg u,
              u.missed_beats⟩ : client_entry_t)]).map client_entry_t.addr).Nodup := by
            rw [hl1]
            simp only [List.map_append, List.map_cons, List.map_nil]
            rw [List.nodup_append]
            refine ⟨hnd, List.nodup_singleton _, ?_⟩
            intro a ha hb
            simp only [List.mem_singleton] at hb
            obtain ⟨x, hx, rfl⟩ := List.mem_map.1 ha
            have := hfresh x hx
            omega
          have h := broadcast_finished env SERVER (joinmsg_fmt n)
            { s1 with
              client_list := s1.client_list ++ [⟨s.next_addr, socket, ip, n,
                declared_key msg u, u.missed_beats⟩]
              num_clients := inc_u32 s1.num_clients } hnd2
          split
          · rename_i f s3 heq3
            exact finished_of_eq h heq3
          · split <;> simp [Outcome.finished]

/-- In a reachable state no call of the three entry points stops for lack of
fuel: each returns, or stops where the C program itself stops. -/
theorem reachable_calls_finished {σ : Int} {s : State} (hr : Reachable σ s) (env : Env) :
    (∀ ar socket ip pk recv u, (new_connection env ar socket ip pk recv u s).finished)
    ∧ (∀ socket len msg, (handle_client_message env socket len msg s).finished)
    ∧ (heartbeat env s).finished := by
  have h := reachable_inv hr
  exact ⟨fun ar socket ip pk recv u =>
      new_connection_finished env ar socket ip pk recv u s h.addrs h.fresh,
    fun socket len msg => handle_client_message_finished env socket len msg s h.addrs,
    heartbeat_finished env s h.addrs⟩

/-! ## Disconnect, heartbeat acknowledgement and relay -/

theorem mem_split_nodup {α : Type} (f : client_entry_t → α) (l : List client_entry_t)
    (X : client_entry_t) (hX : X ∈ l) (hnd : (l.map f).Nodup) :
    ∃ pre post, l = pre ++ X :: post ∧ f X ∉ pre.map f ∧ f X ∉ post.map f := by
  obtain ⟨pre, post, rfl⟩ := List.append_of_mem hX
  obtain ⟨h1, h2, -⟩ := nodup_map_split f pre X post hnd
  exact ⟨pre, post, rfl, h1, h2⟩

theorem find_socket_split (pre : List client_entry_t) (X : client_entry_t)
    (post : List client_entry_t) (h : X.socket ∉ pre.map client_entry_t.socket) :
    get_client_with_socket X.socket (pre ++ X :: post) = some X := by
  unfold get_client_with_socket
  induction pre with
  | nil => simp
  | cons p ps ih =>
    simp only [List.map_cons, List.mem_cons, not_or] at h
    have hne : ¬ p.socket = X.socket := fun hp => h.1 hp.symm
    simp only [List.cons_append, List.find?_cons, hne, decide_False]
    exact ih h.2

theorem reset_split (a : List client_entry_t) (e : client_entry_t)
    (b : List client_entry_t) (h : e.addr ∉ a.map client_entry_t.addr) :
    reset e.addr (a ++ e :: b) = a ++ { e with missed_beats := 0 } :: b := by
  induction a with
  | nil => simp [reset]
  | cons p ps ih =>
    simp only [List.map_cons, List.mem_cons, not_or] at h
    show reset e.addr (p :: (ps ++ e :: b)) = p :: (ps ++ { e with missed_beats := 0 } :: b)
    rw [reset, if_neg (fun hp => h.1 hp.symm), ih h.2]

/-- C11: when the payload of a session X (not the server record) is exactly
"DISCONNECT\n", or the transport returned zero bytes, and every send succeeds,
`handle_client_message` returns 0; X is unlinked, the other records keep their
order, `num_clients` and the number of sessions decrease by one, every session
that remains is sent "(<time>) SERVER: <name of X> left the chat" under its own
key, and nothing else is sent: nothing goes to X and the payload is not
relayed.  Stated for registries with distinct addresses and sockets whose
counter agrees with the list. -/
theorem disconnect_evicts_session (env : Env) (s : State) (hd X : client_entry_t)
    (pre post : List client_entry_t) (len : Int) (msg : List Char)
    (hok : ∀ k, env.send_ok k = true)
    (hl : s.client_list = hd :: (pre ++ X :: post))
    (haddr : (s.client_list.map client_entry_t.addr).Nodup)
    (hsock : (s.client_list.map client_entry_t.socket).Nodup)
    (hcount : s.client_list.length = s.num_clients + 1) (hsmall : s.num_clients < 2 ^ 32)
    (hlen : len ≠ -1) (hmsg : msg = DISCONNECT ∨ len = 0) :
    handle_client_message env X.socket len msg s
        = .ok 0
            { s with
              client_list := hd :: (pre ++ post)
              num_clients := s.num_clients - 1
              sent := s.sent ++ (pre ++ post).map
                (delivered (departure_line (env.clock s.sent.length) X.uname)) }
    ∧ (∀ e ∈ hd :: (pre ++ post), e.socket ≠ X.socket)
    ∧ (∀ m ∈ (pre ++ post).map (delivered (departure_line (env.clock s.sent.length) X.uname)),
        m.socket ≠ X.socket) := by
  have hsock' := hsock
  rw [hl, ← List.cons_append] at hsock'
  obtain ⟨hs1, hs2, hs3⟩ := nodup_map_split client_entry_t.socket (hd :: pre) X post hsock'
  have hhd : hd.socket ≠ X.socket := fun h => hs1 (by simp [h])
  have hpre : X.socket ∉ pre.map client_entry_t.socket := fun h => hs1 (List.mem_cons_of_mem _ h)
  have hfind : get_client_with_socket X.socket s.client_list = some X := by
    rw [hl, ← List.cons_append]
    exact find_socket_split (hd :: pre) X post hs1
  have hnot : ∀ e ∈ hd :: (pre ++ post), e.socket ≠ X.socket := by
    intro e he h
    rcases List.mem_cons.1 he with rfl | he
    · exact hhd h
    · rcases List.mem_append.1 he with he | he
      · exact hpre (h ▸ List.mem_map_of_mem _ he)
      · exact hs2 (h ▸ List.mem_map_of_mem _ he)
  refine ⟨?_, hnot, ?_⟩
  · have hfuel : (pre ++ X :: post).length + 1 < fuel_bound s.client_list.length := by
      have := fuel_bound_ge s.client_list.length
      rw [hl] at this ⊢
      simp only [List.length_cons, List.length_append] at this ⊢
      omega
    have hrm := remove_client_aux_all_ok env hok X.socket hd (pre ++ X :: post) X (pre ++ post)
      (fuel_bound s.client_list.length) s hl haddr hhd (unlink_split pre X post hpre) hfuel
    have hdec : dec_u32 s.num_clients = s.num_clients - 1 := by
      apply dec_u32_pos _ _ hsmall
      rw [hl] at hcount
      simp only [List.length_cons, List.length_append] at hcount
      omega
    unfold handle_client_message
    simp only [hfind, hlen, if_false, hmsg, if_true, remove_client, hrm, hdec]
    simp [departure_line]
  · intro m hm
    obtain ⟨y, hy, rfl⟩ := List.mem_map.1 hm
    exact hnot y (List.mem_cons_of_mem _ hy)

/-- Witness of C11: bob disconnects while alice and carol are connected. -/
theorem disconnect_evicts_session_witness :
    ((∀ k, env_all_ok.send_ok k = true)
      ∧ ex_state3.client_list = ex_server :: ([ex_alice] ++ ex_bob :: [ex_carol])
      ∧ (ex_state3.client_list.map client_entry_t.addr).Nodup
      ∧ (ex_state3.client_list.map client_entry_t.socket).Nodup
      ∧ ex_state3.client_list.length = ex_state3.num_clients + 1
      ∧ ex_state3.num_clients < 2 ^ 32
      ∧ (11 : Int) ≠ -1 ∧ (DISCONNECT = DISCONNECT ∨ (11 : Int) = 0))
    ∧ handle_client_message env_all_ok ex_bob.socket 11 DISCONNECT ex_state3
        = .ok 0
            { ex_state3 with
              client_list := ex_server :: ([ex_alice] ++ [ex_carol])
              num_clients := ex_state3.num_clients - 1
              sent := ex_state3.sent ++ ([ex_alice] ++ [ex_carol]).map
                (delivered (departure_line (env_all_ok.clock ex_state3.sent.length)
                  ex_bob.uname)) }
    ∧ (∀ e ∈ ex_server :: ([ex_alice] ++ [ex_carol]), e.socket ≠ ex_bob.socket)
    ∧ (∀ m ∈ ([ex_alice] ++ [ex_carol]).map
          (delivered (departure_line (env_all_ok.clock ex_state3.sent.length) ex_bob.uname)),
        m.socket ≠ ex_bob.socket) :=
  ⟨⟨fun _ => rfl, rfl, by decide, by decide, rfl, by decide, by decide, Or.inl rfl⟩,
    disconnect_evicts_session env_all_ok ex_state3 ex_server ex_bob [ex_alice] [ex_carol] 11
      DISCONNECT (fun _ => rfl) rfl (by decide) (by decide) rfl (by decide) (by decide)
      (Or.inl rfl)⟩

/-- C12: when the payload of a session X is exactly "HEARTBEAT\n" (the
transport delivered it: `len` is neither -1 nor 0), `handle_client_message`
returns 0 and the only change is that X's `missed_beats` is 0: nothing is sent,
the other fields of X, the other records, their order and `num_clients` are as
before.  Stated for registries with distinct addresses and sockets. -/
theorem heartbeat_ack_resets_counter (env : Env) (s : State) (X : client_entry_t)
    (pre post : List client_entry_t) (len : Int)
    (hl : s.client_list = pre ++ X :: post)
    (haddr : (s.client_list.map client_entry_t.addr).Nodup)
    (hsock : (s.client_list.map client_entry_t.socket).Nodup)
    (hlen : len ≠ -1) (hlen0 : len ≠ 0) :
    handle_client_message env X.socket len HEARTBEAT s
      = .ok 0 { s with client_list := pre ++ { X with missed_beats := 0 } :: post } := by
  obtain ⟨hs1, -, -⟩ := nodup_map_split client_entry_t.socket pre X post (hl ▸ hsock)
  obtain ⟨ha1, -, -⟩ := nodup_map_split client_entry_t.addr pre X post (hl ▸ haddr)
  have hfind : get_client_with_socket X.socket s.client_list = some X := by
    rw [hl]; exact find_socket_split pre X post hs1
  have hne : HEARTBEAT ≠ DISCONNECT := by decide
  unfold handle_client_message
  simp only [hfind, hlen, if_false, hne, hlen0, or_self, if_true]
  rw [hl, reset_split pre X post ha1]

/-- Witness of C12: bob, who has missed three beats, acknowledges. -/
theorem heartbeat_ack_resets_counter_witness :
    (ex_state_timeout.client_list
        = [ex_server, ex_alice] ++ { ex_bob with missed_beats := 3 } :: [ex_carol]
      ∧ (ex_state_timeout.client_list.map client_entry_t.addr).Nodup
      ∧ (ex_state_timeout.client_list.map client_entry_t.socket).Nodup
      ∧ (10 : Int) ≠ -1 ∧ (10 : Int) ≠ 0)
    ∧ handle_client_message env_all_ok
          ({ ex_bob with missed_beats := 3 } : client_entry_t).socket 10 HEARTBEAT
          ex_state_timeout
        = .ok 0 { ex_state_timeout with
            client_list := [ex_server, ex_alice]
              ++ { ({ ex_bob with missed_beats := 3 } : client_entry_t) with missed_beats := 0 }
                :: [ex_carol] } :=
  ⟨⟨rfl, by decide, by decide, by decide, by decide⟩,
    heartbeat_ack_resets_counter env_all_ok ex_state_timeout { ex_bob with missed_beats := 3 }
      [ex_server, ex_alice] [ex_carol] 10 rfl (by decide) (by decide) (by decide) (by decide)⟩

/-- C13: when every send succeeds, `broadcast(name, text)` returns 0, leaves the
registry as it is, and sends exactly one message to each record after the
first, in list order and under that record's key, the text being the same
"(HH:MM:SS) name: text" for all; no message goes to the socket of the first
record.  Stated for registries with distinct addresses and sockets. -/
theorem broadcast_delivers_to_all (env : Env) (uname msg : List Char) (s : State)
    (hd : client_entry_t) (rest : List client_entry_t)
    (hok : ∀ k, env.send_ok k = true)
    (hl : s.client_list = hd :: rest)
    (haddr : (s.client_list.map client_entry_t.addr).Nodup)
    (hsock : (s.client_list.map client_entry_t.socket).Nodup) :
    broadcast env uname msg s
        = .ok 0
            { s with
              sent := s.sent ++ rest.map (fun e =>
                ⟨e.socket, outgoing_fmt (strftime_HMS (env.clock s.sent.length)) uname msg,
                  some e.key, true⟩) }
    ∧ (∀ e ∈ rest, e.socket ≠ hd.socket)
    ∧ (∃ h1 h2 m1 m2 s1 s2 : Char,
        outgoing_fmt (strftime_HMS (env.clock s.sent.length)) uname msg
          = "(".toList ++ [h1, h2, ':', m1, m2, ':', s1, s2] ++ ") ".toList ++ uname
              ++ ": ".toList ++ msg) := by
  refine ⟨?_, ?_, ?_⟩
  · rw [broadcast_all_ok env hok uname msg hd rest s hl haddr]
    rfl
  · intro e he h
    rw [hl] at hsock
    simp only [List.map_cons, List.nodup_cons] at hsock
    exact hsock.1 (h ▸ List.mem_map_of_mem _ he)
  · exact ⟨_, _, _, _, _, _, rfl⟩

/-- Witness of C13. -/
theorem broadcast_delivers_to_all_witness :
    ((∀ k, env_all_ok.send_ok k = true)
      ∧ ex_state3.client_list = ex_server :: [ex_alice, ex_bob, ex_carol]
      ∧ (ex_state3.client_list.map client_entry_t.addr).Nodup
      ∧ (ex_state3.client_list.map client_entry_t.socket).Nodup)
    ∧ broadcast env_all_ok "alice".toList "hi".toList ex_state3
        = .ok 0
            { ex_state3 with
              sent := ex_state3.sent ++ [ex_alice, ex_bob, ex_carol].map (fun e =>
                ⟨e.socket,
                  outgoing_fmt (strftime_HMS (env_all_ok.clock ex_state3.sent.length))
                    "alice".toList "hi".toList,
                  some e.key, true⟩) }
    ∧ (∀ e ∈ [ex_alice, ex_bob, ex_carol], e.socket ≠ ex_server.socket)
    ∧ (∃ h1 h2 m1 m2 s1 s2 : Char,
        outgoing_fmt (strftime_HMS (env_all_ok.clock ex_state3.sent.length))
            "alice".toList "hi".toList
          = "(".toList ++ [h1, h2, ':', m1, m2, ':', s1, s2] ++ ") ".toList ++ "alice".toList
              ++ ": ".toList ++ "hi".toList) :=
  ⟨⟨fun _ => rfl, rfl, by decide, by decide⟩,
    broadcast_delivers_to_all env_all_ok "alice".toList "hi".toList ex_state3 ex_server
      [ex_alice, ex_bob, ex_carol] (fun _ => rfl) rfl (by decide) (by decide)⟩

/-! ## The heartbeat pass without a timed-out session -/

theorem heartbeat_loop_ping_all (env : Env) (hok : ∀ n, env.send_ok n = true) :
    ∀ (rest pre : List client_entry_t) (it : client_entry_t) (fuel : Nat) (s : State),
      s.client_list = pre ++ it :: rest →
      (s.client_list.map client_entry_t.addr).Nodup →
      (∀ e ∈ rest, e.missed_beats ≠ 3) →
      rest.length < fuel →
      heartbeat_loop fuel env it.addr s
        = .ok ()
            { s with
              client_list := pre ++ it :: rest.map
                (fun e => { e with missed_beats := e.missed_beats + 1 })
              sent := s.sent ++ rest.map (delivered HEARTBEAT) } := by
  intro rest
  induction rest with
  | nil =>
    intro pre it fuel s hl hnd _ hf
    cases fuel with
    | zero => omega
    | succ f =>
      have hderef : deref it.addr s.client_list = some (it, []) := by
        rw [hl]; exact deref_split pre it [] (not_mem_pre_of_nodup (hl ▸ hnd))
      rw [heartbeat_loop]
      simp only [hderef, List.map_nil, List.append_nil, ← hl]
  | cons nx rest1 ih =>
    intro pre it fuel s hl hnd hmb hf
    cases fuel with
    | zero => omega
    | succ f =>
      have hderef : deref it.addr s.client_list = some (it, nx :: rest1) := by
        rw [hl]; exact deref_split pre it _ (not_mem_pre_of_nodup (hl ▸ hnd))
      have hl'' : s.client_list = (pre ++ [it]) ++ nx :: rest1 := by rw [hl]; simp
      obtain ⟨ha1, -, -⟩ := nodup_map_split client_entry_t.addr (pre ++ [it]) nx rest1
        (hl'' ▸ hnd)
      have hnx : nx.missed_beats ≠ 3 := hmb nx (List.mem_cons_self _ _)
      have hbump : bump nx.addr s.client_list
          = (pre ++ [it]) ++ { nx with missed_beats := nx.missed_beats + 1 } :: rest1 := by
        rw [hl'']
        exact bump_split _ nx rest1 ha1
      have hmapa : ((pre ++ [it]) ++ { nx with missed_beats := nx.missed_beats + 1 } :: rest1).map
          client_entry_t.addr = s.client_list.map client_entry_t.addr := by
        rw [hl]; simp
      rw [heartbeat_loop]
      simp only [hderef, hnx, if_false, send, hok]
      have := ih (pre ++ [it]) { nx with missed_beats := nx.missed_beats + 1 } f
        { s with
          client_list := bump nx.addr s.client_list
          sent := s.sent ++ [⟨nx.socket, HEARTBEAT, some nx.key, true⟩] }
        hbump (by simp only [hbump, hmapa]; exact hnd)
        (fun e he => hmb e (List.mem_cons_of_mem _ he)) (by simpa using hf)
      simp only at this
      rw [this]
      simp [delivered]

/-- C14: when every send succeeds and no session has `missed_beats` equal to 3,
a heartbeat pass sends "HEARTBEAT\n" exactly once to each record after the
first, in list order and under that record's key, adds one to the
`missed_beats` of each of them, and changes nothing else: same records, same
order, same other fields, same `num_clients`.  Stated for registries whose
records have distinct addresses. -/
theorem heartbeat_pings_every_session (env : Env) (s : State) (hd : client_entry_t)
    (rest : List client_entry_t)
    (hok : ∀ k, env.send_ok k = true)
    (hl : s.client_list = hd :: rest)
    (haddr : (s.client_list.map client_entry_t.addr).Nodup)
    (hmb : ∀ e ∈ rest, e.missed_beats ≠ 3) :
    heartbeat env s
      = .ok ()
          { s with
            client_list := hd :: rest.map
              (fun e => { e with missed_beats := e.missed_beats + 1 })
            sent := s.sent ++ rest.map (fun e => ⟨e.socket, HEARTBEAT, some e.key, true⟩) } := by
  have hfuel : rest.length < fuel_bound s.client_list.length := by
    have := fuel_bound_ge s.client_list.length
    rw [hl] at this ⊢
    simp only [List.length_cons] at this ⊢
    omega
  have h := heartbeat_loop_ping_all env hok rest [] hd (fuel_bound s.client_list.length) s hl
    haddr hmb hfuel
  unfold heartbeat
  rw [hl] at h ⊢
  simp only [List.nil_append] at h ⊢
  rw [h]
  rfl

/-- Witness of C14. -/
theorem heartbeat_pings_every_session_witness :
    ((∀ k, env_all_ok.send_ok k = true)
      ∧ ex_state3.client_list = ex_server :: [ex_alice, ex_bob, ex_carol]
      ∧ (ex_state3.client_list.map client_entry_t.addr).Nodup
      ∧ ∀ e ∈ [ex_alice, ex_bob, ex_carol], e.missed_beats ≠ 3)
    ∧ heartbeat env_all_ok ex_state3
      = .ok ()
          { ex_state3 with
            client_list := ex_server :: [ex_alice, ex_bob, ex_carol].map
              (fun e => { e with missed_beats := e.missed_beats + 1 })
            sent := ex_state3.sent ++ [ex_alice, ex_bob, ex_carol].map
              (fun e => ⟨e.socket, HEARTBEAT, some e.key, true⟩) } :=
  ⟨⟨fun _ => rfl, rfl, by decide, by decide⟩,
    heartbeat_pings_every_session env_all_ok ex_state3 ex_server [ex_alice, ex_bob, ex_carol]
      (fun _ => rfl) rfl (by decide) (by decide)⟩

/-! ## Defects of the heartbeat pass and of the admission -/

/-- C15: when the heartbeat token cannot be sent to bob, the pass evicts bob,
then adds one to carol's `missed_beats` and moves on without sending carol the
token. -/
theorem heartbeat_failure_skips_next :
    heartbeat env_second_fails ex_state3 = .ok () ex_state3_after_failed_ping
    ∧ (⟨6, HEARTBEAT, some ex_key, true⟩ : Sent) ∉ ex_state3_after_failed_ping.sent
    ∧ { ex_carol with missed_beats := 1 } ∈ ex_state3_after_failed_ping.client_list := by
  decide

/-- When the heartbeat token cannot be sent to the last session, the pass
evicts it and then dereferences the NULL `next_entry` of its predecessor. -/
theorem heartbeat_failure_at_last_session :
    heartbeat ⟨fun n => n != 0, fun _ => 43200⟩ ex_state1
      = .fault .null_deref
          { client_list := [ex_server]
            num_clients := 0
            sent := [⟨4, HEARTBEAT, some ex_key, false⟩]
            next_addr := 2 } := by
  decide

/-- C20: `new_connection` leaves the `missed_beats` of the record it appends as
`malloc` delivered it.  When that storage holds 3, the admitted session is
evicted by the first heartbeat pass without having been sent the token once. -/
theorem new_session_counter_not_initialised :
    new_connection env_all_ok ex_accept_resp 7 "10.0.0.9".toList ex_pubkey (some ex_request)
        ex_indet3 (init_client_manager 3) = .ok 0 ex_admitted3
    ∧ heartbeat env_all_ok ex_admitted3
        = .ok () { ex_admitted3 with client_list := [ex_server], num_clients := 0 } := by
  decide

/-- When the storage holds 0, the session is sent the token in three passes
and evicted by the fourth. -/
theorem new_session_counter_zero_four_passes :
    heartbeat env_all_ok ex_admitted
      = .ok () { ex_admitted with
          client_list := [ex_server, ⟨1, 7, "10.0.0.9".toList, "alice".toList, ex_key, 1⟩]
          sent := ex_admitted.sent ++ [⟨7, HEARTBEAT, some ex_key, true⟩] }
    ∧ heartbeat env_all_ok { ex_admitted with
          client_list := [ex_server, ⟨1, 7, "10.0.0.9".toList, "alice".toList, ex_key, 1⟩] }
      = .ok () { ex_admitted with
          client_list := [ex_server, ⟨1, 7, "10.0.0.9".toList, "alice".toList, ex_key, 2⟩]
          sent := ex_admitted.sent ++ [⟨7, HEARTBEAT, some ex_key, true⟩] }
    ∧ heartbeat env_all_ok { ex_admitted with
          client_list := [ex_server, ⟨1, 7, "10.0.0.9".toList, "alice".toList, ex_key, 2⟩] }
      = .ok () { ex_admitted with
          client_list := [ex_server, ⟨1, 7, "10.0.0.9".toList, "alice".toList, ex_key, 3⟩]
          sent := ex_admitted.sent ++ [⟨7, HEARTBEAT, some ex_key, true⟩] }
    ∧ heartbeat env_all_ok { ex_admitted with
          client_list := [ex_server, ⟨1, 7, "10.0.0.9".toList, "alice".toList, ex_key, 3⟩] }
      = .ok () { ex_admitted with client_list := [ex_server], num_clients := 0 } := by
  decide

/-! ## The fatal branch after `remove_client` -/

theorem unlink_isSome_of_mem (x : client_entry_t) :
    ∀ l : List client_entry_t, x ∈ l → ∃ d l', unlink x.socket l = some (d, l') := by
  intro l
  induction l with
  | nil => intro h; simp at h
  | cons y ys ih =>
    intro h
    simp only [unlink]
    by_cases hy : y.socket = x.socket
    · exact ⟨y, ys, by simp [hy]⟩
    · rcases List.mem_cons.1 h with rfl | h
      · exact absurd rfl hy
      · obtain ⟨d, l', hu⟩ := ih h
        exact ⟨d, y :: l', by simp [hy, hu]⟩

theorem deref_next_mem_tail (a : Nat) (l : List client_entry_t) (e nx : client_entry_t)
    (tl : List client_entry_t) (h : deref a l = some (e, nx :: tl)) : nx ∈ l.tail := by
  cases l with
  | nil => simp [deref] at h
  | cons y ys =>
    simp only [deref] at h
    simp only [List.tail_cons]
    split at h
    · simp only [Option.some.injEq, Prod.mk.injEq] at h
      rw [h.2]; exact List.mem_cons_self _ _
    · exact deref_mem a ys e (nx :: tl) h nx (List.mem_cons_self _ _)

/-- `remove_client` returns -1 only when no record after the first has the
socket it is given. -/
theorem remove_client_aux_found (fuel : Nat) (env : Env) (s : State) (x : client_entry_t)
    (hx : x ∈ s.client_list.tail) (r : Int) (s' : State)
    (h : remove_client_aux fuel env x.socket s = .ok r s') : r ≠ -1 := by
  cases fuel with
  | zero => simp [remove_client_aux] at h
  | succ fuel =>
    rw [remove_client_aux] at h
    split at h
    · simp at h
    · rename_i hd rest hl
      rw [hl] at hx
      simp only [List.tail_cons] at hx
      obtain ⟨d, l', hu⟩ := unlink_isSome_of_mem x rest hx
      split at h
      · simp at h
      · rw [hu] at h
        simp only at h
        split at h
        · simp at h
        · simp only [Outcome.ok.injEq] at h
          rw [← h.1]
          decide

theorem no_exit_of_eq {α β : Type} {o : Outcome α} {f : Fault} {s : State}
    (h : o.no_exit) (heq : o = .fault f s) : (Outcome.fault f s : Outcome β).no_exit := by
  rw [heq] at h
  cases f <;> simp_all [Outcome.no_exit]

/-- Neither `broadcast` nor `remove_client` reaches `exit(-1)`, whatever the
registry and the outcomes of the sends. -/
theorem no_exit_aux (fuel : Nat) :
    (∀ env outgoing it result s, (broadcast_loop fuel env outgoing it result s).no_exit)
    ∧ (∀ env uname msg s, (broadcast_aux fuel env uname msg s).no_exit)
    ∧ (∀ env socket s, (remove_client_aux fuel env socket s).no_exit) := by
  induction fuel with
  | zero =>
    exact ⟨fun _ _ _ _ _ => by simp [broadcast_loop, Outcome.no_exit],
      fun _ _ _ _ => by simp [broadcast_aux, Outcome.no_exit],
      fun _ _ _ => by simp [remove_client_aux, Outcome.no_exit]⟩
  | succ fuel ih =>
    obtain ⟨ihl, ihb, ihr⟩ := ih
    refine ⟨?_, ?_, ?_⟩
    · intro env outgoing it result s
      cases it with
      | none => simp [broadcast_loop, Outcome.no_exit]
      | some a =>
        rw [broadcast_loop]
        split
        · simp [Outcome.no_exit]
        · rename_i e rest hd
          split
          · exact ihl _ _ _ _ _
          · rename_i s1 hs
            have hs1 := send_eq _ _ _ _ _ _ _ hs
            have hl1 : s1.client_list = s.client_list := by rw [hs1]; rfl
            split
            · simp [Outcome.no_exit]
            · rename_i nx tl
              split
              · rename_i f s2 heq
                exact no_exit_of_eq (ihr env nx.socket s1) heq
              · rename_i r2 s2 heq
                have hnx : nx ∈ s1.client_list.tail := by
                  rw [hl1]; exact deref_next_mem_tail a _ e nx tl hd
                have hr2 := remove_client_aux_found fuel env s1 nx hnx r2 s2 heq
                simp only [hr2, if_false]
                split
                · simp [Outcome.no_exit]
                · exact ihl _ _ _ _ _
    · intro env uname msg s
      rw [broadcast_aux]
      split
      · simp [Outcome.no_exit]
      · exact ihl _ _ _ _ _
    · intro env socket s
      rw [remove_client_aux]
      split
      · simp [Outcome.no_exit]
      · split
        · simp [Outcome.no_exit]
        · split
          · simp [Outcome.no_exit]
          · simp only
            split
            · rename_i f s2 heq
              exact no_exit_of_eq (ihb _ _ _ _) heq
            · simp [Outcome.no_exit]

/-- The loop of `heartbeat` does not reach `exit(-1)`. -/
theorem heartbeat_loop_no_exit (fuel : Nat) :
    ∀ env it s, (heartbeat_loop fuel env it s).no_exit := by
  induction fuel with
  | zero => intro env it s; simp [heartbeat_loop, Outcome.no_exit]
  | succ fuel ih =>
    intro env it s
    rw [heartbeat_loop]
    split
    · simp [Outcome.no_exit]
    · simp [Outcome.no_exit]
    · rename_i e nx tl hd
      have hnx : nx ∈ s.client_list.tail := deref_next_mem_tail it _ e nx tl hd
      split
      · split
        · rename_i f s2 heq
          exact no_exit_of_eq ((no_exit_aux fuel).2.2 env nx.socket s) heq
        · rename_i r2 s2 heq
          have hr2 := remove_client_aux_found fuel env s nx hnx r2 s2 heq
          simp only [hr2, if_false]
          exact ih _ _ _
      · split
        · exact ih _ _ _
        · rename_i s1 hs
          have hs1 := send_eq _ _ _ _ _ _ _ hs
          have hl1 : s1.client_list = s.client_list := by rw [hs1]; rfl
          split
          · rename_i f s2 heq
            exact no_exit_of_eq ((no_exit_aux fuel).2.2 env nx.socket s1) heq
          · rename_i r2 s2 heq
            have hr2 := remove_client_aux_found fuel env s1 nx (hl1 ▸ hnx) r2 s2 heq
            simp only [hr2, if_false]
            split
            · simp [Outcome.no_exit]
            · simp [Outcome.no_exit]
            · exact ih _ _ _

/-- From the heartbeat pass and from the failure path of `broadcast`,
`remove_client` never returns -1: no call of `broadcast` or `heartbeat`
reaches `exit(-1)`, for any registry and any outcomes of the sends. -/
theorem exit_unreachable (env : Env) (s : State) :
    (∀ uname msg, (broadcast env uname msg s).no_exit) ∧ (heartbeat env s).no_exit := by
  refine ⟨fun uname msg => (no_exit_aux _).2.1 env uname msg s, ?_⟩
  unfold heartbeat
  split
  · simp [Outcome.no_exit]
  · exact heartbeat_loop_no_exit _ _ _ _

/-- C18: the argument of the eviction call in `broadcast` is not always
defined.  In the reachable state where alice is the only session, a chat line
from alice whose delivery (to alice, the last session) fails makes `broadcast`
evaluate `remove_client(iterator->next_entry->socket)` with `iterator->next_entry`
NULL. -/
theorem eviction_argument_undefined :
    Reachable 3 ex_admitted
    ∧ handle_client_message ⟨fun n => n != 2, fun _ => 43200⟩ 7 2 "hi".toList ex_admitted
      = .fault .null_deref
          { ex_admitted with
            sent := ex_admitted.sent
              ++ [⟨7, "(12:00:00) alice: hi".toList, some ex_key, false⟩] } :=
  ⟨ex_admitted_reachable, by decide⟩

/-! ## Termination -/

/-- C19: for every registry whose records have distinct addresses and every
pattern of send outcomes, `broadcast`, `remove_client` and `heartbeat` end:
with the fuel they are given, and with any larger fuel, the calls and the
loops come to a result (a return, or a stop at a NULL pointer, a freed record)
and never run out of fuel, although `broadcast` calls `remove_client`,
`remove_client` calls `broadcast`, and `heartbeat` looks at the same position
again after an eviction. -/
theorem calls_terminate (env : Env) (s : State)
    (hnd : (s.client_list.map client_entry_t.addr).Nodup) :
    (∀ uname msg, (broadcast env uname msg s).finished)
    ∧ (∀ socket, (remove_client env socket s).finished)
    ∧ (heartbeat env s).finished
    ∧ (∀ fuel, fuel_bound s.client_list.length ≤ fuel →
        (∀ uname msg, (broadcast_aux fuel env uname msg s).finished)
        ∧ (∀ socket, (remove_client_aux fuel env socket s).finished)
        ∧ (∀ hd, s.client_list.head? = some hd →
            (heartbeat_loop fuel env hd.addr s).finished)) := by
  refine ⟨fun uname msg => broadcast_finished env uname msg s hnd,
    fun socket => remove_client_finished env socket s hnd, heartbeat_finished env s hnd, ?_⟩
  intro fuel hf
  have hb : fuel_bound s.client_list.length
      = (s.client_list.length + 2) * (s.client_list.length + 2) := rfl
  have hr : fuel_remove s.client_list.length
      = s.client_list.length * (s.client_list.length + 2) + 1 := rfl
  refine ⟨fun uname msg => ?_, fun socket => ?_, fun hd hhd => ?_⟩
  · refine (finished_aux fuel).2.1 env uname msg s s.client_list.length hnd (Nat.le_refl _) ?_
    rw [hr]; rw [hb] at hf; nlinarith
  · refine (finished_aux fuel).2.2 env socket s s.client_list.length hnd (Nat.le_refl _) ?_
    rw [hr]; rw [hb] at hf; nlinarith
  · refine heartbeat_loop_finished fuel env hd.addr s s.client_list.length
      (2 * s.client_list.length) hnd (Nat.le_refl _) ?_ ?_
    · have := ahead_le_length hd.addr s.client_list
      omega
    · rw [hr]; rw [hb] at hf; nlinarith

/-- Witness of C19: three sessions, the second send fails. -/
theorem calls_terminate_witness :
    (ex_state3.client_list.map client_entry_t.addr).Nodup
    ∧ (∀ uname msg, (broadcast env_second_fails uname msg ex_state3).finished)
    ∧ (∀ socket, (remove_client env_second_fails socket ex_state3).finished)
    ∧ (heartbeat env_second_fails ex_state3).finished
    ∧ (∀ fuel, fuel_bound ex_state3.client_list.length ≤ fuel →
        (∀ uname msg, (broadcast_aux fuel env_second_fails uname msg ex_state3).finished)
        ∧ (∀ socket, (remove_client_aux fuel env_second_fails socket ex_state3).finished)
        ∧ (∀ hd, ex_state3.client_list.head? = some hd →
            (heartbeat_loop fuel env_second_fails hd.addr ex_state3).finished)) :=
  ⟨by decide, calls_terminate env_second_fails ex_state3 (by decide)⟩

/-! ## Field extraction -/

theorem isPrefixOf_token (w : Char) (rest : List Char) (hw : isspace w = true) :
    ∀ (t p : List Char), (∀ c ∈ t, isspace c = false) → (∀ c ∈ p, isspace c = false) →
      (p ++ [' ']).isPrefixOf (t ++ w :: rest) = true → p = t := by
  intro t
  induction t with
  | nil =>
    intro p _ hp h
    cases p with
    | nil => rfl
    | cons c p' =>
      simp only [List.cons_append, List.nil_append, List.isPrefixOf, Bool.and_eq_true,
        beq_iff_eq] at h
      have := hp c (List.mem_cons_self _ _)
      rw [h.1, hw] at this
      exact absurd this (by decide)
  | cons x t' ih =>
    intro p ht hp h
    cases p with
    | nil =>
      simp only [List.nil_append, List.cons_append, List.isPrefixOf, Bool.and_eq_true,
        beq_iff_eq] at h
      have := ht x (List.mem_cons_self _ _)
      rw [← h.1] at this
      exact absurd this (by decide)
    | cons c p' =>
      simp only [List.cons_append, List.isPrefixOf, Bool.and_eq_true, beq_iff_eq] at h
      have := ih p' (fun c hc => ht c (List.mem_cons_of_mem _ hc))
        (fun c hc => hp c (List.mem_cons_of_mem _ hc)) h.2
      rw [h.1, this]

theorem strstr_skip_token (w : Char) (rest p : List Char) (hw : isspace w = true)
    (hp : ∀ c ∈ p, isspace c = false) :
    ∀ t : List Char, (∀ c ∈ t, isspace c = false) → (∀ u, u <:+ t → u ≠ p) →
      strstr (t ++ w :: rest) (p ++ [' ']) = strstr (w :: rest) (p ++ [' ']) := by
  intro t
  induction t with
  | nil => intro _ _; rfl
  | cons x t' ih =>
    intro ht hsuf
    have hnot : (p ++ [' ']).isPrefixOf ((x :: t') ++ w :: rest) = false := by
      rw [Bool.eq_false_iff]
      intro h
      exact hsuf (x :: t') (List.suffix_refl _) (isPrefixOf_token w rest hw (x :: t') p ht hp h).symm
    show strstr (x :: (t' ++ w :: rest)) (p ++ [' ']) = _
    rw [strstr]
    rw [show x :: (t' ++ w :: rest) = (x :: t') ++ w :: rest from rfl, hnot]
    simp only [Bool.false_eq_true, if_false]
    exact ih (fun c hc => ht c (List.mem_cons_of_mem _ hc))
      (fun u hu => hsuf u (hu.trans (List.suffix_cons x t')))

theorem strstr_skip_space (rest : List Char) (c : Char) (p : List Char)
    (hc : isspace c = false) :
    ∀ sep : List Char, (∀ w ∈ sep, isspace w = true) →
      strstr (sep ++ rest) (c :: p) = strstr rest (c :: p) := by
  intro sep
  induction sep with
  | nil => intro _; rfl
  | cons w ws ih =>
    intro hsep
    have hne : ¬ c = w := by
      intro h
      have := hsep w (List.mem_cons_self _ _)
      rw [← h, hc] at this
      exact absurd this (by decide)
    show strstr (w :: (ws ++ rest)) (c :: p) = _
    have hbeq : (c == w) = false := by simpa using hne
    rw [strstr]
    simp only [List.isPrefixOf, hbeq, Bool.false_and, Bool.false_eq_true, if_false]
    exact ih (fun w' hw' => hsep w' (List.mem_cons_of_mem _ hw'))
theorem label_lit_no_space (l : Label) : ∀ c ∈ l.lit, isspace c = false := by
  cases l <;> decide

theorem strstr_skip_label (l1 l2 : Label) (hne : l1 ≠ l2) (y : List Char) :
    strstr (l1.lit ++ ' ' :: y) (l2.lit ++ [' ']) = strstr y (l2.lit ++ [' ']) := by
  cases l1 <;> cases l2 <;>
    first
    | exact absurd rfl hne
    | simp [Label.lit, strstr, List.isPrefixOf]

theorem strstr_at_label (l : Label) (y : List Char) :
    strstr (l.lit ++ ' ' :: y) (l.lit ++ [' ']) = some (l.lit ++ ' ' :: y) := by
  cases l <;> simp [Label.lit, strstr, List.isPrefixOf]

theorem takeWhile_token (v : List Char) (w : Char) (z : List Char)
    (hv : ∀ c ∈ v, isspace c = false) (hw : isspace w = true) :
    (v ++ w :: z).takeWhile (fun c => !isspace c) = v := by
  induction v with
  | nil => simp [List.takeWhile, hw]
  | cons x xs ih =>
    have hx := hv x (List.mem_cons_self _ _)
    show List.takeWhile (fun c => !isspace c) (x :: (xs ++ w :: z)) = x :: xs
    rw [List.takeWhile_cons]
    simp only [hx, Bool.not_false, if_true]
    rw [ih (fun c hc => hv c (List.mem_cons_of_mem _ hc))]

theorem sscanf_s_token (l : Label) (v : List Char) (w : Char) (z : List Char)
    (hne : v ≠ []) (hv : ∀ c ∈ v, isspace c = false) (hlen : v.length ≤ l.width)
    (hw : isspace w = true) :
    sscanf_s l.lit l.width (l.lit ++ ' ' :: (v ++ w :: z)) = some v := by
  obtain ⟨x, xs, rfl⟩ := List.exists_cons_of_ne_nil hne
  have hx := hv x (List.mem_cons_self _ _)
  have hpre : l.lit.isPrefixOf (l.lit ++ ' ' :: ((x :: xs) ++ w :: z)) = true := by
    rw [List.isPrefixOf_iff_prefix]
    exact List.prefix_append _ _
  have hsp : isspace ' ' = true := by decide
  unfold sscanf_s
  simp only [hpre, if_true, List.drop_left, List.dropWhile_cons, hsp, List.cons_append, hx,
    Bool.false_eq_true, if_false]
  have htw := takeWhile_token (x :: xs) w z hv hw
  simp only [List.cons_append] at htw
  rw [htw, List.take_of_length_le hlen]
  simp

/-- The scan of a label over a request made of delimited token fields gives
the value of the first field that carries the label. -/
theorem scan_field_render (l : Label) (old : List Char) :
    ∀ fs : List Field, (∀ f ∈ fs, f.token ∧ f.delimited) →
      scan_field l.lit l.width (render_request fs) old
        = (fs.find? (fun f => f.label = l)).map Field.value := by
  intro fs
  induction fs with
  | nil =>
    intro _
    cases l <;> simp [scan_field, render_request, strstr, Label.lit]
  | cons f fs ih =>
    intro hwf
    obtain ⟨⟨hne, hv, hlen⟩, hsepne, hsep, hsuf⟩ := hwf f (List.mem_cons_self _ _)
    obtain ⟨w, ws, hws⟩ := List.exists_cons_of_ne_nil hsepne
    have hw : isspace w = true := hsep w (hws ▸ List.mem_cons_self _ _)
    have hrender : render_request (f :: fs)
        = f.label.lit ++ ' ' :: (f.value ++ w :: (ws ++ render_request fs)) := by
      simp [render_request, Field.render, hws]
    by_cases hl : f.label = l
    · subst hl
      simp only [List.find?_cons, decide_True, Option.map_some']
      unfold scan_field
      rw [hrender, strstr_at_label]
      simp only
      rw [sscanf_s_token f.label f.value w _ hne hv hlen hw]
      rfl
    · simp only [List.find?_cons, hl, decide_False]
      rw [← ih (fun g hg => hwf g (List.mem_cons_of_mem _ hg))]
      unfold scan_field
      have hskip : strstr (render_request (f :: fs)) (l.lit ++ [' '])
          = strstr (render_request fs) (l.lit ++ [' ']) := by
        rw [hrender, strstr_skip_label f.label l hl,
          strstr_skip_token w _ l.lit hw (label_lit_no_space l) f.value hv
            (fun u hu heq => hsuf l (heq ▸ hu))]
        obtain ⟨c, p, hcp, hc⟩ : ∃ c p, l.lit ++ [' '] = c :: p ∧ isspace c = false := by
          cases l <;> exact ⟨_, _, rfl, by decide⟩
        rw [hcp]
        have := strstr_skip_space (render_request fs) c p hc (w :: ws)
          (fun w' hw' => hsep w' (hws ▸ hw'))
        simpa using this
      rw [hskip]
theorem find_label_of_mem :
    ∀ (fs : List Field) (f : Field), (fs.map Field.label).Nodup → f ∈ fs →
      fs.find? (fun g => g.label = f.label) = some f := by
  intro fs
  induction fs with
  | nil => intro f _ h; simp at h
  | cons g gs ih =>
    intro f hnd hf
    simp only [List.map_cons, List.nodup_cons] at hnd
    rcases List.mem_cons.1 hf with rfl | hf
    · simp
    · have hne : ¬ g.label = f.label := by
        intro h
        exact hnd.1 (h ▸ List.mem_map_of_mem _ hf)
      simp only [List.find?_cons, hne, decide_False]
      exact ih f hnd.2 hf

theorem new_connection_congr (env : Env) (ar : Nat → List Char → List Char → List Char)
    (socket : Int) (ip : List Char) (pk : rsa_key_t) (m1 m2 : List Char) (u : Indeterminate)
    (s : State) (hB : field_BASE m1 u = field_BASE m2 u) (hE : field_EXP m1 u = field_EXP m2 u)
    (hD : field_DIV m1 u = field_DIV m2 u) (hN : field_UNAME m1 u = field_UNAME m2 u) :
    new_connection env ar socket ip pk (some m1) u s
      = new_connection env ar socket ip pk (some m2) u s := by
  unfold new_connection
  simp only [hB, hE, hD, hN]

theorem scan_of_perm (fs canon : List Field) (hperm : fs.Perm canon)
    (hnd : (canon.map Field.label).Nodup) (hwf : ∀ f ∈ canon, f.token ∧ f.delimited)
    (f : Field) (hf : f ∈ canon) (old : List Char) :
    scan_field f.label.lit f.label.width (render_request fs) old = some f.value := by
  rw [scan_field_render f.label old fs (fun g hg => hwf g (hperm.subset hg)),
    find_label_of_mem fs f ((hperm.map Field.label).nodup_iff.2 hnd) (hperm.symm.subset hf)]
  rfl

/-- C16, as stated, fails: with the same four values (the UNAME being the token
"BASE:") and one blank after each field, the request with BASE first is
admitted, while in the request with UNAME first the first occurrence of
"BASE: " lies in the UNAME field, the BASE scan gives "BASE", and the request
is rejected. -/
theorem field_order_changes_outcome :
    ex_fields_uname_first.Perm ex_fields_base_first
    ∧ (∀ f ∈ ex_fields_base_first, f.token)
    ∧ field_BASE (render_request ex_fields_base_first) ex_indet = some "16".toList
    ∧ field_BASE (render_request ex_fields_uname_first) ex_indet = some "BASE".toList
    ∧ new_connection env_all_ok ex_accept_resp 7 "10.0.0.9".toList ex_pubkey
        (some (render_request ex_fields_base_first)) ex_indet (init_client_manager 3)
      = .ok 0
          { client_list := [ex_server, ⟨1, 7, "10.0.0.9".toList, "BASE:".toList, ex_key, 0⟩]
            num_clients := 1
            sent :=
              [⟨7, "BASE: 62\nEXP: h\nDIV: z9\n".toList, some ex_key, true⟩,
               ⟨7, "(12:00:00) SERVER: BASE: joined the chat".toList, some ex_key, true⟩]
            next_addr := 2 }
    ∧ new_connection env_all_ok ex_accept_resp 7 "10.0.0.9".toList ex_pubkey
        (some (render_request ex_fields_uname_first)) ex_indet (init_client_manager 3)
      = .ok (-1) { init_client_manager 3 with sent := [⟨7, INVALID_BASE, none, true⟩] } := by
  refine ⟨by decide, by decide, by decide, by decide, by decide, by decide⟩

/-- C16, amended: when each of the four values is a token (not empty, free of
white space, within the width of its label) that does not end with the text of
a label, and each field is followed by white space, the order of the four
fields in the request does not matter: for every permutation `new_connection`
scans the same four values and reaches the same outcome as for the order BASE,
EXP, DIV, UNAME. -/
theorem field_extraction_order_insensitive (b e d n sb se sd sn : List Char)
    (fs : List Field) (u : Indeterminate)
    (hperm : fs.Perm (request_fields b e d n sb se sd sn))
    (hwf : ∀ f ∈ request_fields b e d n sb se sd sn, f.token ∧ f.delimited) :
    field_BASE (render_request fs) u = some b
    ∧ field_EXP (render_request fs) u = some e
    ∧ field_DIV (render_request fs) u = some d
    ∧ field_UNAME (render_request fs) u = some n
    ∧ ∀ (env : Env) (ar : Nat → List Char → List Char → List Char) (socket : Int)
        (ip : List Char) (pk : rsa_key_t) (s : State),
        new_connection env ar socket ip pk (some (render_request fs)) u s
          = new_connection env ar socket ip pk
              (some (render_request (request_fields b e d n sb se sd sn))) u s := by
  have hnd : ((request_fields b e d n sb se sd sn).map Field.label).Nodup := by
    simp [request_fields]
  have key : ∀ (gs : List Field), gs.Perm (request_fields b e d n sb se sd sn) →
      field_BASE (render_request gs) u = some b
      ∧ field_EXP (render_request gs) u = some e
      ∧ field_DIV (render_request gs) u = some d
      ∧ field_UNAME (render_request gs) u = some n := by
    intro gs hgs
    refine ⟨?_, ?_, ?_, ?_⟩
    · exact scan_of_perm gs _ hgs hnd hwf ⟨.BASE, b, sb⟩ (by simp [request_fields]) _
    · exact scan_of_perm gs _ hgs hnd hwf ⟨.EXP, e, se⟩ (by simp [request_fields]) _
    · exact scan_of_perm gs _ hgs hnd hwf ⟨.DIV, d, sd⟩ (by simp [request_fields]) _
    · exact scan_of_perm gs _ hgs hnd hwf ⟨.UNAME, n, sn⟩ (by simp [request_fields]) _
  obtain ⟨h1, h2, h3, h4⟩ := key fs hperm
  obtain ⟨g1, g2, g3, g4⟩ := key _ (List.Perm.refl _)
  refine ⟨h1, h2, h3, h4, ?_⟩
  intro env ar socket ip pk s
  exact new_connection_congr env ar socket ip pk _ _ u s (h1.trans g1.symm) (h2.trans g2.symm)
    (h3.trans g3.symm) (h4.trans g4.symm)
/-- Witness of the amended C16: the fields of the specification's example, one
per line, in the order UNAME, DIV, BASE, EXP. -/
theorem field_extraction_order_insensitive_witness :
    (ex_fields_shuffled.Perm (request_fields "16".toList "11".toList "1F4".toList
        "alice".toList ['\n'] ['\n'] ['\n'] ['\n'])
      ∧ ∀ f ∈ request_fields "16".toList "11".toList "1F4".toList "alice".toList
          ['\n'] ['\n'] ['\n'] ['\n'], f.token ∧ f.delimited)
    ∧ field_BASE (render_request ex_fields_shuffled) ex_indet = some "16".toList
    ∧ field_EXP (render_request ex_fields_shuffled) ex_indet = some "11".toList
    ∧ field_DIV (render_request ex_fields_shuffled) ex_indet = some "1F4".toList
    ∧ field_UNAME (render_request ex_fields_shuffled) ex_indet = some "alice".toList
    ∧ ∀ (env : Env) (ar : Nat → List Char → List Char → List Char) (socket : Int)
        (ip : List Char) (pk : rsa_key_t) (s : State),
        new_connection env ar socket ip pk (some (render_request ex_fields_shuffled))
            ex_indet s
          = new_connection env ar socket ip pk
              (some (render_request (request_fields "16".toList "11".toList "1F4".toList
                "alice".toList ['\n'] ['\n'] ['\n'] ['\n']))) ex_indet s :=
  ⟨⟨by decide, by decide⟩,
    field_extraction_order_insensitive "16".toList "11".toList "1F4".toList "alice".toList
      ['\n'] ['\n'] ['\n'] ['\n'] ex_fields_shuffled ex_indet (by decide) (by decide)⟩

/-- The fields of the specification's example in the order BASE, EXP, DIV,
UNAME make up the request `ex_request`. -/
theorem render_request_example :
    render_request (request_fields "16".toList "11".toList "1F4".toList "alice".toList
      ['\n'] ['\n'] ['\n'] ['\n']) = ex_request := by
  decide

end L0kalCh4t
